import Mathlib

/-!
# iteration_utilities: `minmax` and `clamp`

A shallow embedding of `src/minmax.c` (`PyIU_MinMax`) and `src/clamp.c`
(`clamp_next` and the iterator object `PyIUObject_Clamp`), followed by the
properties of the two components.

Modelling conventions.

* A CPython iterator is the list of the elements it will still yield;
  `tp_iternext` pops the head, and an empty list is exhaustion
  (`StopIteration`, cleared by `PYIU_CLEAR_STOPITERATION`).
* A call into the interpreter that may raise (`PyObject_Call` on the key
  function, `PyObject_RichCompareBool`) returns `Except E _`, where `E` is the
  type of the exceptions of these collaborators. `PyObject_RichCompareBool`
  is a parameter `cmp`; its C results `1`, `0`, `-1` are `.ok true`,
  `.ok false`, `.error e`.
* Reference counting (`Py_INCREF`, `Py_DECREF`) has no counterpart.
-/

namespace IterationUtilities

/-! ## Interpreter interface -/

/-- Comparison operators handed to `PyObject_RichCompareBool`. -/
inductive CompareOp where
  | Py_LT
  | Py_LE
  | Py_GT
  | Py_GE
  deriving DecidableEq, Repr

/-- The rich comparison of a totally ordered type: it never raises and answers
each operator by the order. -/
def orderCompare (E : Type) {K : Type} [LinearOrder K] (a b : K) : CompareOp → Except E Bool
  | .Py_LT => .ok (decide (a < b))
  | .Py_LE => .ok (decide (a ≤ b))
  | .Py_GT => .ok (decide (b < a))
  | .Py_GE => .ok (decide (b ≤ a))

/-- Outcome of a failed call: the exception left set when a function returns
`NULL`. `TypeError` and `ValueError` are the ones raised by `PyErr_Format` in
`PyIU_MinMax` (the specification's ConfigurationError and EmptySequenceError);
`Raised e` is an exception raised by the key function or by a comparison and
passed on unchanged (the specification's ComparisonError). -/
inductive PyErr (E : Type) where
  | TypeError
  | ValueError
  | Raised (e : E)
  deriving DecidableEq, Repr

/-! ## `minmax.c` -/

/-- The `key` keyword argument: `NULL` when it is not given (then the compared
value is the item itself, so the value type is the item type), or a callable
from items to values. -/
inductive KeyFunc (E T : Type) : Type → Type 1 where
  | NULL : KeyFunc E T T
  | callable {K : Type} (f : T → Except E K) : KeyFunc E T K

/-- Lines 76-99 of `minmax.c`: the value of an item is `keyfunc(item)` when a
key function is given and the item itself otherwise. -/
def getval {E T K : Type} : KeyFunc E T K → T → Except E K
  | .NULL, item => .ok item
  | .callable f, item => f item

/-- The four locals `minval`, `minitem`, `maxval`, `maxitem` once they are set
(they are set together, on the first pass through the loop body). -/
structure MinMaxState (T K : Type) where
  minval : K
  minitem : T
  maxval : K
  maxitem : T

/-- Lines 179-207: compare the low slot `(val1, item1)` with the running minimum
by strict `<` and the high slot `(val2, item2)` with the running maximum by
strict `>`. -/
def minmax_update {E T K : Type} (cmp : K → K → CompareOp → Except E Bool)
    (st : MinMaxState T K) (val1 : K) (item1 : T) (val2 : K) (item2 : T) :
    Except E (MinMaxState T K) := do
  let lt ← cmp val1 st.minval .Py_LT
  let st1 : MinMaxState T K :=
    if lt then { st with minval := val1, minitem := item1 } else st
  let gt ← cmp val2 st1.maxval .Py_GT
  let st2 : MinMaxState T K :=
    if gt then { st1 with maxval := val2, maxitem := item2 } else st1
  pure st2

/-- One pass through the body of the `while` loop (lines 70-208): `item1` was
drawn, `item2` is the second draw (`none` when the iterator was exhausted),
`st` is `none` while `minval == NULL`. -/
def minmax_body {E T K : Type} (cmp : K → K → CompareOp → Except E Bool)
    (keyfunc : KeyFunc E T K) (st : Option (MinMaxState T K)) (item1 : T)
    (item2 : Option T) : Except E (MinMaxState T K) := do
  let val1 ← getval keyfunc item1
  match item2 with
  | some item2 =>
    let val2 ← getval keyfunc item2
    match st with
    | none =>
      let lt ← cmp val1 val2 .Py_LT
      if lt then
        pure { minval := val1, minitem := item1, maxval := val2, maxitem := item2 }
      else
        let gt ← cmp val1 val2 .Py_GT
        if gt then
          pure { minval := val2, minitem := item2, maxval := val1, maxitem := item1 }
        else
          pure { minval := val1, minitem := item1, maxval := val1, maxitem := item1 }
    | some st =>
      let lt ← cmp val2 val1 .Py_LT
      if lt then
        minmax_update cmp st val2 item2 val1 item1
      else
        minmax_update cmp st val1 item1 val2 item2
  | none =>
    match st with
    | none =>
      pure { minval := val1, minitem := item1, maxval := val1, maxitem := item1 }
    | some st =>
      minmax_update cmp st val1 item1 val1 item1

/-- The `while` loop of lines 68-209 over the elements the iterator yields. Each
round draws `item1` and then tries to draw `item2`. -/
def minmax_loop {E T K : Type} (cmp : K → K → CompareOp → Except E Bool)
    (keyfunc : KeyFunc E T K) :
    List T → Option (MinMaxState T K) → Except E (Option (MinMaxState T K))
  | [], st => .ok st
  | [item1], st =>
    match minmax_body cmp keyfunc st item1 none with
    | .error e => .error e
    | .ok st1 => .ok (some st1)
  | item1 :: item2 :: rest, st =>
    match minmax_body cmp keyfunc st item1 (some item2) with
    | .error e => .error e
    | .ok st1 => minmax_loop cmp keyfunc rest (some st1)

/-- The positional arguments `args` of a call, over an item type `T`: either a
tuple of standalone values, or exactly one argument that is an iterable, given
by the items its iterator yields. A standalone value is not itself iterable. -/
inductive Args (T : Type) where
  | values (vs : List T)
  | iterable (sequence : List T)

/-- The length of the argument tuple: `PyTuple_Size(args)`. -/
def PyTuple_Size {T : Type} : Args T → Nat
  | .values vs => vs.length
  | .iterable _ => 1

/-- Lines 19-23 and 61: the iterator over `sequence`. With more than one
positional argument the sequence is the argument tuple itself; otherwise the one
argument must be iterable. Only called when `PyArg_UnpackTuple` has succeeded
or `positional` holds. -/
def PyObject_GetIter {T : Type} : Args T → Option (List T)
  | .iterable sequence => some sequence
  | .values vs => if 1 < vs.length then some vs else none

/-- The keyword arguments `kwargs`: `key`, `default`, and the number of entries
under any other name. -/
structure Kwargs (E T K : Type) where
  keyfunc : KeyFunc E T K
  defaultitem : Option T
  unexpected : Nat

/-- The function `PyIU_MinMax` of `minmax.c`. -/
def PyIU_MinMax {E T K : Type} (cmp : K → K → CompareOp → Except E Bool)
    (args : Args T) (kwargs : Kwargs E T K) : Except (PyErr E) (T × T) :=
  let positional : Bool := decide (1 < PyTuple_Size args)
  -- line 21: `PyArg_UnpackTuple(args, "minmax", 1, 1, &sequence)`
  if positional = false ∧ PyTuple_Size args ≠ 1 then .error .TypeError
  -- line 38: unexpected keyword argument
  else if kwargs.unexpected ≠ 0 then .error .TypeError
  -- line 46: default together with several positional arguments
  else if positional = true ∧ kwargs.defaultitem.isSome = true then .error .TypeError
  else
    match PyObject_GetIter args with
    | none => .error .TypeError
    | some iterator =>
      match minmax_loop cmp kwargs.keyfunc iterator none with
      | .error e => .error (.Raised e)
      | .ok none =>
        match kwargs.defaultitem with
        | some d => .ok (d, d)
        | none => .error .ValueError
      | .ok (some st) => .ok (st.minitem, st.maxitem)

/-! ### The scan with a log of its calls into the interpreter

The same loop, run so that every call of the key function and every rich
comparison is written to a log, in the order in which the calls are made. A
failed call ends the run (`goto Fail`), so nothing is logged after it. -/

/-- One call into the interpreter made by the scan, with the exception it
raised, if any: `PyObject_Call` on the key function, or
`PyObject_RichCompareBool`. -/
inductive Event (E : Type) where
  | call_key (raised : Option E)
  | compare (raised : Option E)
  deriving DecidableEq, Repr

/-- The exception a logged call raised, if any. -/
def Event.raised {E : Type} : Event E → Option E
  | .call_key r => r
  | .compare r => r

/-- Whether a logged call is a rich comparison. -/
def Event.isCompare {E : Type} : Event E → Bool
  | .call_key _ => false
  | .compare _ => true

/-- The exception of a failed call, if it failed. -/
def raisedBy {E α : Type} : Except E α → Option E
  | .ok _ => none
  | .error e => some e

/-- A result together with the log of the calls made to compute it. -/
structure Traced (E α : Type) where
  log : List (Event E)
  result : Except E α

/-- Sequencing of logged computations: on a failure the rest is not run. -/
def Traced.bind {E α β : Type} (x : Traced E α) (f : α → Traced E β) : Traced E β :=
  match x.result with
  | .error e => { log := x.log, result := .error e }
  | .ok a => { log := x.log ++ (f a).log, result := (f a).result }

instance instMonadTraced (E : Type) : Monad (Traced E) where
  pure a := { log := [], result := .ok a }
  bind := Traced.bind

/-- Lines 76-99 with the call logged: with no key function nothing is called. -/
def getval_traced {E T K : Type} : KeyFunc E T K → T → Traced E K
  | .NULL, item => pure item
  | .callable f, item => { log := [.call_key (raisedBy (f item))], result := f item }

/-- A call of `PyObject_RichCompareBool`, logged. -/
def compare_traced {E K : Type} (cmp : K → K → CompareOp → Except E Bool)
    (a b : K) (op : CompareOp) : Traced E Bool :=
  { log := [.compare (raisedBy (cmp a b op))], result := cmp a b op }

/-- Lines 179-207, every comparison logged. -/
def minmax_update_traced {E T K : Type} (cmp : K → K → CompareOp → Except E Bool)
    (st : MinMaxState T K) (val1 : K) (item1 : T) (val2 : K) (item2 : T) :
    Traced E (MinMaxState T K) := do
  let lt ← compare_traced cmp val1 st.minval .Py_LT
  let st1 : MinMaxState T K :=
    if lt then { st with minval := val1, minitem := item1 } else st
  let gt ← compare_traced cmp val2 st1.maxval .Py_GT
  let st2 : MinMaxState T K :=
    if gt then { st1 with maxval := val2, maxitem := item2 } else st1
  pure st2

/-- The body of the `while` loop (lines 70-208), every call logged. -/
def minmax_body_traced {E T K : Type} (cmp : K → K → CompareOp → Except E Bool)
    (keyfunc : KeyFunc E T K) (st : Option (MinMaxState T K)) (item1 : T)
    (item2 : Option T) : Traced E (MinMaxState T K) := do
  let val1 ← getval_traced keyfunc item1
  match item2 with
  | some item2 =>
    let val2 ← getval_traced keyfunc item2
    match st with
    | none =>
      let lt ← compare_traced cmp val1 val2 .Py_LT
      if lt then
        pure { minval := val1, minitem := item1, maxval := val2, maxitem := item2 }
      else
        let gt ← compare_traced cmp val1 val2 .Py_GT
        if gt then
          pure { minval := val2, minitem := item2, maxval := val1, maxitem := item1 }
        else
          pure { minval := val1, minitem := item1, maxval := val1, maxitem := item1 }
    | some st =>
      let lt ← compare_traced cmp val2 val1 .Py_LT
      if lt then
        minmax_update_traced cmp st val2 item2 val1 item1
      else
        minmax_update_traced cmp st val1 item1 val2 item2
  | none =>
    match st with
    | none =>
      pure { minval := val1, minitem := item1, maxval := val1, maxitem := item1 }
    | some st =>
      minmax_update_traced cmp st val1 item1 val1 item1

/-- The `while` loop of lines 68-209, every call logged. -/
def minmax_loop_traced {E T K : Type} (cmp : K → K → CompareOp → Except E Bool)
    (keyfunc : KeyFunc E T K) :
    List T → Option (MinMaxState T K) → Traced E (Option (MinMaxState T K))
  | [], st => pure st
  | [item1], st => do
    let st1 ← minmax_body_traced cmp keyfunc st item1 none
    pure (some st1)
  | item1 :: item2 :: rest, st => do
    let st1 ← minmax_body_traced cmp keyfunc st item1 (some item2)
    minmax_loop_traced cmp keyfunc rest (some st1)

/-- The function `PyIU_MinMax` with the log of the calls it made. The argument
checks of lines 17-66 call neither the key function nor a comparison. -/
def PyIU_MinMax_traced {E T K : Type} (cmp : K → K → CompareOp → Except E Bool)
    (args : Args T) (kwargs : Kwargs E T K) :
    List (Event E) × Except (PyErr E) (T × T) :=
  let positional : Bool := decide (1 < PyTuple_Size args)
  if positional = false ∧ PyTuple_Size args ≠ 1 then ([], .error .TypeError)
  else if kwargs.unexpected ≠ 0 then ([], .error .TypeError)
  else if positional = true ∧ kwargs.defaultitem.isSome = true then ([], .error .TypeError)
  else
    match PyObject_GetIter args with
    | none => ([], .error .TypeError)
    | some iterator =>
      let run := minmax_loop_traced cmp kwargs.keyfunc iterator none
      (run.log,
        match run.result with
        | .error e => .error (.Raised e)
        | .ok none =>
          match kwargs.defaultitem with
          | some d => .ok (d, d)
          | none => .error .ValueError
        | .ok (some st) => .ok (st.minitem, st.maxitem))

/-- The number of rich comparisons in a log. -/
def comparisons {E : Type} (log : List (Event E)) : Nat :=
  log.countP Event.isCompare

/-! ## `clamp.c` -/

/-- The struct `PyIUObject_Clamp`: `low` and `high` are `none` when the pointer
is `NULL`; `inclusive` and `remove` are C `int` flags, tested for being
nonzero. The specification's mode `Remove` is `remove ≠ 0` and `Replace` is
`remove = 0`. -/
structure PyIUObject_Clamp (T : Type) where
  iterator : List T
  low : Option T
  high : Option T
  inclusive : Int
  remove : Int

/-- The function `clamp_new`, after argument parsing: absent arguments take
their defaults `low=NULL`, `high=NULL`, `inclusive=0`, `remove=1` at the
caller. -/
def clamp_new {T : Type} (iterable : List T) (low high : Option T)
    (inclusive remove : Int) : PyIUObject_Clamp T :=
  { iterator := iterable, low := low, high := high,
    inclusive := inclusive, remove := remove }

/-- What one call of `tp_iternext` hands back: an item, `NULL` without an
exception (exhaustion), or `NULL` with the exception of a failed comparison. -/
inductive NextResult (E T : Type) where
  | item (x : T)
  | exhausted
  | failed (e : E)
  deriving DecidableEq, Repr

/-- The `while` loop of `clamp_next` (lines 96-133) over the items the wrapped
iterator still yields. Returns the result together with what is left in the
iterator. -/
def clamp_next_loop {E T : Type} (cmp : T → T → CompareOp → Except E Bool)
    (self : PyIUObject_Clamp T) : List T → NextResult E T × List T
  | [] => (.exhausted, [])
  | item :: rest =>
    -- lines 98-112; `none` stands for falling through to the check of `high`
    let lowcheck : Option (NextResult E T × List T) :=
      match self.low with
      | none => none
      | some low =>
        match cmp item low (if self.inclusive ≠ 0 then .Py_LE else .Py_LT) with
        | .ok true =>
          if self.remove = 0 then some (.item low, rest)
          else some (clamp_next_loop cmp self rest)
        | .error e => some (.failed e, rest)
        | .ok false => none
    match lowcheck with
    | some r => r
    | none =>
      -- lines 114-130
      match self.high with
      | none => (.item item, rest)
      | some high =>
        match cmp item high (if self.inclusive ≠ 0 then .Py_GE else .Py_GT) with
        | .ok true =>
          if self.remove = 0 then (.item high, rest)
          else clamp_next_loop cmp self rest
        | .error e => (.failed e, rest)
        | .ok false => (.item item, rest)

/-- The function `clamp_next`: the result and the clamp afterwards. Only the
wrapped iterator advances. -/
def clamp_next {E T : Type} (cmp : T → T → CompareOp → Except E Bool)
    (self : PyIUObject_Clamp T) : NextResult E T × PyIUObject_Clamp T :=
  let r := clamp_next_loop cmp self self.iterator
  (r.1, { self with iterator := r.2 })

/-- Draining an iterator into a list the way `list(...)` does: call `clamp_next`
until it returns `NULL`, and raise if an exception is set then. The result is
`none` when `fuel` calls did not reach the end. -/
def drain {E T : Type} (cmp : T → T → CompareOp → Except E Bool) :
    Nat → PyIUObject_Clamp T → Option (Except E (List T))
  | 0, _ => none
  | fuel + 1, self =>
    match clamp_next cmp self with
    | (.item x, self1) =>
      match drain cmp fuel self1 with
      | some (.ok out) => some (.ok (x :: out))
      | other => other
    | (.exhausted, _) => some (.ok [])
    | (.failed e, _) => some (.error e)

/-- The full output `list(clamp(...))` of a clamp. Every call that yields an
item consumes at least one item of the wrapped iterator, so one call more
than there are items reaches the end. -/
def clamp_list {E T : Type} (cmp : T → T → CompareOp → Except E Bool)
    (self : PyIUObject_Clamp T) : Option (Except E (List T)) :=
  drain cmp (self.iterator.length + 1) self

/-! ### `__reduce__` and `__setstate__`

Tuples are lists of objects of the item type `T`. Format unit `O` takes an
entry as it is; format unit `i` converts an entry to a C `int` (parameter
`asInt`, failing when the entry is not an integer) or builds an entry from a C
`int` (parameter `ofInt`). -/

/-- The call `PyArg_ParseTuple(state, "ii", &inclusive, &remove)`: exactly two
entries, both integers. A wrong number of entries is a `TypeError`. -/
def PyArg_ParseTuple_ii {E T : Type} (asInt : T → Except E Int) :
    List T → Except (PyErr E) (Int × Int)
  | [a, b] =>
    match asInt a with
    | .error e => .error (.Raised e)
    | .ok inclusive =>
      match asInt b with
      | .error e => .error (.Raised e)
      | .ok remove => .ok (inclusive, remove)
  | _ => .error .TypeError

/-- The call `PyArg_ParseTuple(state, "Oii", &high, &inclusive, &remove)`:
exactly three entries, an object and two integers. -/
def PyArg_ParseTuple_Oii {E T : Type} (asInt : T → Except E Int) :
    List T → Except (PyErr E) (T × Int × Int)
  | [high, a, b] =>
    match asInt a with
    | .error e => .error (.Raised e)
    | .ok inclusive =>
      match asInt b with
      | .error e => .error (.Raised e)
      | .ok remove => .ok (high, inclusive, remove)
  | _ => .error .TypeError

/-- The function `clamp_setstate`: the outcome (`None`, or the exception of a
failed parse) and the clamp afterwards. A failed parse returns before any field
is written. -/
def clamp_setstate {E T : Type} (asInt : T → Except E Int) (self : PyIUObject_Clamp T)
    (state : List T) : Except (PyErr E) Unit × PyIUObject_Clamp T :=
  if state.length = 3 then
    match PyArg_ParseTuple_Oii asInt state with
    | .error e => (.error e, self)
    | .ok (high, inclusive, remove) =>
      (.ok (), { self with high := some high, inclusive := inclusive, remove := remove })
  else
    match PyArg_ParseTuple_ii asInt state with
    | .error e => (.error e, self)
    | .ok (inclusive, remove) =>
      (.ok (), { self with inclusive := inclusive, remove := remove })

/-- The value `__reduce__` returns, without the type object: the argument tuple,
whose first entry is the wrapped iterator and whose further entries are `args`,
and the state tuple when there is one. -/
structure ReduceValue (T : Type) where
  iterator : List T
  args : List T
  state : Option (List T)

/-- The function `clamp_reduce`. -/
def clamp_reduce {T : Type} (ofInt : Int → T) (self : PyIUObject_Clamp T) : ReduceValue T :=
  match self.low, self.high with
  | none, none =>
    { iterator := self.iterator, args := [],
      state := some [ofInt self.inclusive, ofInt self.remove] }
  | some low, none =>
    { iterator := self.iterator, args := [low],
      state := some [ofInt self.inclusive, ofInt self.remove] }
  | none, some high =>
    { iterator := self.iterator, args := [],
      state := some [high, ofInt self.inclusive, ofInt self.remove] }
  | some low, some high =>
    { iterator := self.iterator, args := [low, high, ofInt self.inclusive, ofInt self.remove],
      state := none }

/-- The function `clamp_new` on a positional argument tuple: the parse
`"O|OOii:clamp"` of line 32 with the defaults of lines 28-29, then the fill of
the struct. The first entry of the tuple is `iterable`, the further ones are
`args`. -/
def clamp_new_args {E T : Type} (asInt : T → Except E Int) (iterable : List T) :
    List T → Except (PyErr E) (PyIUObject_Clamp T)
  | [] => .ok (clamp_new iterable none none 0 1)
  | [low] => .ok (clamp_new iterable (some low) none 0 1)
  | [low, high] => .ok (clamp_new iterable (some low) (some high) 0 1)
  | [low, high, a] =>
    match asInt a with
    | .error e => .error (.Raised e)
    | .ok inclusive => .ok (clamp_new iterable (some low) (some high) inclusive 1)
  | [low, high, a, b] =>
    match asInt a with
    | .error e => .error (.Raised e)
    | .ok inclusive =>
      match asInt b with
      | .error e => .error (.Raised e)
      | .ok remove => .ok (clamp_new iterable (some low) (some high) inclusive remove)
  | _ => .error .TypeError

/-- Rebuilding an object from the value of `__reduce__`, as `copy` and `pickle`
do: call the type on the argument tuple, then call `__setstate__` with the
state tuple when there is one. -/
def reconstruct {E T : Type} (asInt : T → Except E Int) (rv : ReduceValue T) :
    Except (PyErr E) (PyIUObject_Clamp T) :=
  match clamp_new_args asInt rv.iterator rv.args with
  | .error e => .error e
  | .ok self =>
    match rv.state with
    | none => .ok self
    | some state =>
      match clamp_setstate asInt self state with
      | (.error e, _) => .error e
      | (.ok _, self1) => .ok self1

/-- A comparison that can fail, the way Python 3 compares an `int` with `None`:
two numbers are compared by their order, any comparison with `none` raises. -/
def noneCompare : Option Nat → Option Nat → CompareOp → Except Unit Bool
  | some a, some b, op => orderCompare Unit a b op
  | _, _, _ => .error ()

/-! ## Definitions used to state the properties -/

/-- What `minmax_update` computes when comparisons are those of a total order:
the minimum changes exactly on `val1 < minval`, the maximum exactly on
`val2 > maxval`. -/
def updated {T K : Type} [LinearOrder K] (st : MinMaxState T K) (v1 : K) (i1 : T) (v2 : K) (i2 : T) : MinMaxState T K :=
  { minval := if v1 < st.minval then v1 else st.minval,
    minitem := if v1 < st.minval then i1 else st.minitem,
    maxval := if st.maxval < v2 then v2 else st.maxval,
    maxitem := if st.maxval < v2 then i2 else st.maxitem }

/-- Running minimum: `minitem` sits in the consumed items `seen` with strictly
larger values before it and no smaller value after it. -/
def MinInv {T K : Type} [LinearOrder K] (f : T → K) (st : MinMaxState T K) (seen : List T) : Prop :=
  st.minval = f st.minitem ∧
    ∃ p q, seen = p ++ st.minitem :: q ∧
      (∀ x ∈ p, f st.minitem < f x) ∧ (∀ x ∈ q, f st.minitem ≤ f x)

/-- Running maximum: `maxitem` is one of the consumed items and no consumed item
has a larger value. -/
def MaxInv {T K : Type} [LinearOrder K] (f : T → K) (st : MinMaxState T K) (seen : List T) : Prop :=
  st.maxval = f st.maxitem ∧ st.maxitem ∈ seen ∧ ∀ x ∈ seen, f x ≤ f st.maxitem

/-- The specification's test "x is below `low`": `x < low`, or `x <= low` when
`inclusive`; an absent bound is never violated. -/
def belowLow {T : Type} [LinearOrder T] (low : Option T) (inclusive : Bool) (x : T) : Bool :=
  match low with
  | none => false
  | some l => if inclusive then decide (x ≤ l) else decide (x < l)

/-- The specification's test "x is above `high`": `x > high`, or `x >= high`
when `inclusive`; an absent bound is never violated. -/
def aboveHigh {T : Type} [LinearOrder T] (high : Option T) (inclusive : Bool) (x : T) : Bool :=
  match high with
  | none => false
  | some h => if inclusive then decide (x ≥ h) else decide (x > h)

/-- The specification's in-range predicate: neither bound is violated. -/
def inRange {T : Type} [LinearOrder T] (low high : Option T) (inclusive : Bool) (x : T) : Bool :=
  !belowLow low inclusive x && !aboveHigh high inclusive x

/-- The specification's replacement rule, as a relation between a source item
`x` and the item `y` put out for it: `low` if `x` is below `low`, `high` if it
is above `high`, and `x` itself otherwise. -/
def ReplacedBy {T : Type} [LinearOrder T] (low high : Option T) (inclusive : Bool)
    (x y : T) : Prop :=
  (belowLow low inclusive x = true → low = some y) ∧
  (aboveHigh high inclusive x = true → high = some y) ∧
  (belowLow low inclusive x = false → aboveHigh high inclusive x = false → y = x)

/-- What `clamp_next` puts out for a source item in Replace mode when
comparisons are those of a total order: the check of `low` comes first. -/
def replaced {T : Type} [LinearOrder T] (low high : Option T) (inclusive : Bool) (x : T) : T :=
  if belowLow low inclusive x = true then low.getD x
  else if aboveHigh high inclusive x = true then high.getD x
  else x

/-- A log of a run that ended with `raised`: when the run did not fail, no
logged call failed; when it failed with `e`, the last logged call is the one
that raised `e` and every call before it succeeded. -/
def FailsLast {E : Type} (log : List (Event E)) (raised : Option E) : Prop :=
  match raised with
  | none => ∀ ev ∈ log, ev.raised = none
  | some e => ∃ pre ev, log = pre ++ [ev] ∧ ev.raised = some e ∧ ∀ y ∈ pre, y.raised = none

/-- A logged computation whose log and result fit together as in `FailsLast`. -/
def WellLogged {E α : Type} (x : Traced E α) : Prop :=
  FailsLast x.log (raisedBy x.result)

/-- The operator of the check of `low` (line 100). -/
def lowOp {T : Type} (self : PyIUObject_Clamp T) : CompareOp :=
  if self.inclusive ≠ 0 then .Py_LE else .Py_LT

/-- The operator of the check of `high` (line 116). -/
def highOp {T : Type} (self : PyIUObject_Clamp T) : CompareOp :=
  if self.inclusive ≠ 0 then .Py_GE else .Py_GT

/-- The check of `low` lets the item through to the check of `high`: `low` is
absent, or the comparison with `low` answers false. -/
def PassesLow {E T : Type} (cmp : T → T → CompareOp → Except E Bool)
    (self : PyIUObject_Clamp T) (item : T) : Prop :=
  self.low = none ∨ ∃ l, self.low = some l ∧ cmp item l (lowOp self) = .ok false

/-- An item the clamp suppresses: the mode is Remove and a comparison that is
made answers that the item violates its bound. -/
def Suppressed {E T : Type} (cmp : T → T → CompareOp → Except E Bool)
    (self : PyIUObject_Clamp T) (item : T) : Prop :=
  self.remove ≠ 0 ∧
    ((∃ l, self.low = some l ∧ cmp item l (lowOp self) = .ok true) ∨
     (PassesLow cmp self item ∧ ∃ h, self.high = some h ∧ cmp item h (highOp self) = .ok true))

/-- A comparison fault at an item: the comparison with `low` fails with `e`, or,
`low` being absent or not violated, the comparison with `high` fails with `e`. -/
def FaultAt {E T : Type} (cmp : T → T → CompareOp → Except E Bool)
    (self : PyIUObject_Clamp T) (item : T) (e : E) : Prop :=
  (∃ l, self.low = some l ∧ cmp item l (lowOp self) = .error e) ∨
  (PassesLow cmp self item ∧ ∃ h, self.high = some h ∧ cmp item h (highOp self) = .error e)

/-! ## Properties of `minmax` -/

/-- Under a total order the update of the running minimum and maximum never
fails. -/
theorem minmax_update_order {E T K : Type} [LinearOrder K]
    (st : MinMaxState T K) (v1 : K) (i1 : T) (v2 : K) (i2 : T) :
    minmax_update (orderCompare E) st v1 i1 v2 i2 = .ok (updated st v1 i1 v2 i2) := by
  by_cases h1 : v1 < st.minval <;> by_cases h2 : st.maxval < v2 <;>
    simp [minmax_update, updated, orderCompare, h1, h2, bind, Except.bind, pure, Except.pure]

theorem minmax_body_first_pair {E T K : Type} [LinearOrder K]
    (kf : KeyFunc E T K) (f : T → K)
    (hf : ∀ x, getval kf x = .ok (f x)) (a b : T) :
    ∃ st, minmax_body (orderCompare E) kf none a (some b) = .ok st ∧
      MinInv f st [a, b] ∧ MaxInv f st [a, b] := by
  rcases lt_trichotomy (f a) (f b) with h | h | h
  · refine ⟨⟨f a, a, f b, b⟩, ?_, ⟨rfl, [], [b], rfl, by simp, by simpa using h.le⟩, ⟨rfl, by simp, by simpa using h.le⟩⟩
    simp [minmax_body, hf, orderCompare, h, bind, Except.bind, pure, Except.pure]
  · refine ⟨⟨f a, a, f a, a⟩, ?_, ⟨rfl, [], [b], rfl, by simp, by simpa using h.le⟩, ⟨rfl, by simp, by simpa using h.ge⟩⟩
    simp [minmax_body, hf, orderCompare, h, bind, Except.bind, pure, Except.pure]
  · refine ⟨⟨f b, b, f a, a⟩, ?_, ⟨rfl, [a], [], rfl, by simpa using h, by simp⟩, ⟨rfl, by simp, by simpa using h.le⟩⟩
    simp [minmax_body, hf, orderCompare, h, h.not_lt, bind, Except.bind, pure, Except.pure]

theorem minInv_extend {T K : Type} [LinearOrder K] {f : T → K} {st : MinMaxState T K} {seen : List T}
    (h : MinInv f st seen) (p1 : List T) (l : T) (q1 : List T) (v2 : K) (i2 : T)
    (hp1 : ∀ x ∈ p1, f l < f x) (hq1 : ∀ x ∈ q1, f l ≤ f x) :
    MinInv f (updated st (f l) l v2 i2) (seen ++ (p1 ++ l :: q1)) := by
  have hv : (updated st (f l) l v2 i2).minval = if f l < st.minval then f l else st.minval := rfl
  have hi : (updated st (f l) l v2 i2).minitem = if f l < st.minval then l else st.minitem := rfl
  generalize updated st (f l) l v2 i2 = st1 at hv hi ⊢
  obtain ⟨ext, hext⟩ : ∃ ext, ext = p1 ++ l :: q1 := ⟨_, rfl⟩
  rw [← hext]
  obtain ⟨hm, p, q, hseen, hp, hq⟩ := h
  have hall : ∀ x ∈ seen, f st.minitem ≤ f x := by
    intro x hx
    rw [hseen] at hx
    rcases List.mem_append.1 hx with hx | hx
    · exact (hp x hx).le
    · rcases List.mem_cons.1 hx with hx | hx
      · rw [hx]
      · exact hq x hx
  by_cases hlt : f l < st.minval
  · rw [if_pos hlt] at hv hi
    refine ⟨by rw [hv, hi], seen ++ p1, q1, by rw [hi, hext, List.append_assoc], ?_, ?_⟩
    · intro x hx
      rw [hi]
      rcases List.mem_append.1 hx with hx | hx
      · exact lt_of_lt_of_le (hm ▸ hlt) (hall x hx)
      · exact hp1 x hx
    · rw [hi]; exact hq1
  · rw [if_neg hlt] at hv hi
    have hle : f st.minitem ≤ f l := hm ▸ not_lt.1 hlt
    refine ⟨by rw [hv, hi, hm], p, q ++ ext, by rw [hi, hseen, List.append_assoc]; rfl, ?_, ?_⟩
    · rw [hi]; exact hp
    · intro x hx
      rw [hi]
      rcases List.mem_append.1 hx with hx | hx
      · exact hq x hx
      · rw [hext] at hx
        rcases List.mem_append.1 hx with hx | hx
        · exact hle.trans (hp1 x hx).le
        · rcases List.mem_cons.1 hx with hx | hx
          · rw [hx]; exact hle
          · exact hle.trans (hq1 x hx)

theorem maxInv_extend {T K : Type} [LinearOrder K] {f : T → K} {st : MinMaxState T K} {seen : List T}
    (h : MaxInv f st seen) (ext : List T) (v1 : K) (i1 : T) (u : T)
    (hu : u ∈ ext) (hext : ∀ x ∈ ext, f x ≤ f u) :
    MaxInv f (updated st v1 i1 (f u) u) (seen ++ ext) := by
  have hv : (updated st v1 i1 (f u) u).maxval = if st.maxval < f u then f u else st.maxval := rfl
  have hi : (updated st v1 i1 (f u) u).maxitem = if st.maxval < f u then u else st.maxitem := rfl
  generalize updated st v1 i1 (f u) u = st1 at hv hi ⊢
  obtain ⟨hm, hmem, hall⟩ := h
  by_cases hlt : st.maxval < f u
  · rw [if_pos hlt] at hv hi
    refine ⟨by rw [hv, hi], by rw [hi]; exact List.mem_append.2 (Or.inr hu), ?_⟩
    intro x hx
    rw [hi]
    rcases List.mem_append.1 hx with hx | hx
    · exact ((hall x hx).trans_lt (hm ▸ hlt)).le
    · exact hext x hx
  · rw [if_neg hlt] at hv hi
    have hle : f u ≤ f st.maxitem := hm ▸ not_lt.1 hlt
    refine ⟨by rw [hv, hi, hm], by rw [hi]; exact List.mem_append.2 (Or.inl hmem), ?_⟩
    intro x hx
    rw [hi]
    rcases List.mem_append.1 hx with hx | hx
    · exact hall x hx
    · exact (hext x hx).trans hle

theorem minmax_body_single {E T K : Type} [LinearOrder K]
    (kf : KeyFunc E T K) (f : T → K)
    (hf : ∀ x, getval kf x = .ok (f x)) (a : T) :
    ∃ st, minmax_body (orderCompare E) kf none a none = .ok st ∧
      MinInv f st [a] ∧ MaxInv f st [a] := by
  refine ⟨⟨f a, a, f a, a⟩, ?_, ⟨rfl, [], [], rfl, by simp, by simp⟩, ⟨rfl, by simp, by simp⟩⟩
  simp [minmax_body, hf, bind, Except.bind, pure, Except.pure]

theorem minmax_body_next_pair {E T K : Type} [LinearOrder K]
    (kf : KeyFunc E T K) (f : T → K)
    (hf : ∀ x, getval kf x = .ok (f x)) (st : MinMaxState T K) (seen : List T)
    (hmin : MinInv f st seen) (hmax : MaxInv f st seen) (a b : T) :
    ∃ st1, minmax_body (orderCompare E) kf (some st) a (some b) = .ok st1 ∧
      MinInv f st1 (seen ++ [a, b]) ∧ MaxInv f st1 (seen ++ [a, b]) := by
  by_cases h : f b < f a
  · refine ⟨updated st (f b) b (f a) a, ?_,
      minInv_extend hmin [a] b [] (f a) a (by simpa using h) (by simp),
      maxInv_extend hmax [a, b] (f b) b a (by simp) (by simpa using h.le)⟩
    simp [minmax_body, hf, orderCompare, h, bind, Except.bind, minmax_update_order]
  · refine ⟨updated st (f a) a (f b) b, ?_,
      minInv_extend hmin [] a [b] (f b) b (by simp) (by simpa using h),
      maxInv_extend hmax [a, b] (f a) a b (by simp) (by simpa using h)⟩
    simp [minmax_body, hf, orderCompare, h, bind, Except.bind, minmax_update_order]

theorem minmax_body_tail {E T K : Type} [LinearOrder K]
    (kf : KeyFunc E T K) (f : T → K)
    (hf : ∀ x, getval kf x = .ok (f x)) (st : MinMaxState T K) (seen : List T)
    (hmin : MinInv f st seen) (hmax : MaxInv f st seen) (a : T) :
    ∃ st1, minmax_body (orderCompare E) kf (some st) a none = .ok st1 ∧
      MinInv f st1 (seen ++ [a]) ∧ MaxInv f st1 (seen ++ [a]) := by
  refine ⟨updated st (f a) a (f a) a, ?_,
      minInv_extend hmin [] a [] (f a) a (by simp) (by simp),
      maxInv_extend hmax [a] (f a) a a (by simp) (by simp)⟩
  simp [minmax_body, hf, bind, Except.bind, minmax_update_order]

/-- The loop from a set state: it ends in a set state that keeps both
invariants over everything consumed. -/
theorem minmax_loop_some {E T K : Type} [LinearOrder K]
    (kf : KeyFunc E T K) (f : T → K)
    (hf : ∀ x, getval kf x = .ok (f x)) :
    ∀ (rest : List T) (st : MinMaxState T K) (seen : List T),
      MinInv f st seen → MaxInv f st seen →
      ∃ st1, minmax_loop (orderCompare E) kf rest (some st) = .ok (some st1) ∧
        MinInv f st1 (seen ++ rest) ∧ MaxInv f st1 (seen ++ rest)
  | [], st, seen, hmin, hmax => ⟨st, rfl, by simpa using hmin, by simpa using hmax⟩
  | [a], st, seen, hmin, hmax => by
    obtain ⟨st1, h1, h2, h3⟩ := minmax_body_tail kf f hf st seen hmin hmax a
    exact ⟨st1, by simp [minmax_loop, h1], h2, h3⟩
  | a :: b :: rest, st, seen, hmin, hmax => by
    obtain ⟨st1, h1, h2, h3⟩ := minmax_body_next_pair kf f hf st seen hmin hmax a b
    obtain ⟨st2, k1, k2, k3⟩ := minmax_loop_some kf f hf rest st1 (seen ++ [a, b]) h2 h3
    refine ⟨st2, by simp [minmax_loop, h1, k1], ?_, ?_⟩
    · simpa using k2
    · simpa using k3

/-- The whole scan of a non-empty sequence under a total order. -/
theorem minmax_loop_order {E T K : Type} [LinearOrder K]
    (kf : KeyFunc E T K) (f : T → K)
    (hf : ∀ x, getval kf x = .ok (f x)) (seq : List T) (hne : seq ≠ []) :
    ∃ st, minmax_loop (orderCompare E) kf seq none = .ok (some st) ∧
      MinInv f st seq ∧ MaxInv f st seq := by
  match seq, hne with
  | [a], _ =>
    obtain ⟨st1, h1, h2, h3⟩ := @minmax_body_single E T K _ kf f hf a
    exact ⟨st1, by simp [minmax_loop, h1], h2, h3⟩
  | a :: b :: rest, _ =>
    obtain ⟨st1, h1, h2, h3⟩ := @minmax_body_first_pair E T K _ kf f hf a b
    obtain ⟨st2, k1, k2, k3⟩ := minmax_loop_some kf f hf rest st1 [a, b] h2 h3
    exact ⟨st2, by simp [minmax_loop, h1, k1], by simpa using k2, by simpa using k3⟩

/-- The single-sequence call with no unexpected keyword: the result is read off
the final loop state, and the default is looked at only when no state was set. -/
theorem PyIU_MinMax_iterable {E T K : Type} (cmp : K → K → CompareOp → Except E Bool)
    (seq : List T) (kf : KeyFunc E T K) (d : Option T) :
    PyIU_MinMax cmp (Args.iterable seq) { keyfunc := kf, defaultitem := d, unexpected := 0 } =
      match minmax_loop cmp kf seq none with
      | .error e => .error (.Raised e)
      | .ok none =>
        match d with
        | some d => .ok (d, d)
        | none => .error .ValueError
      | .ok (some st) => .ok (st.minitem, st.maxitem) := by
  simp [PyIU_MinMax, PyTuple_Size, PyObject_GetIter]

/-- An item that splits a list into strictly larger values before it and no
smaller values after it sits at the first position holding the least value. -/
theorem first_least_index {T K : Type} [LinearOrder K] (f : T → K) (seq p q : List T) (m : T)
    (h : seq = p ++ m :: q) (hp : ∀ x ∈ p, f m < f x) (hq : ∀ x ∈ q, f m ≤ f x) :
    ∃ i, ∃ hi : i < seq.length, seq[i] = m ∧
      (∀ j, ∀ hj : j < seq.length, f m ≤ f seq[j]) ∧
      (∀ j, ∀ hj : j < seq.length, j < i → f m < f seq[j]) := by
  have hlen : p.length < seq.length := by rw [h]; simp
  refine ⟨p.length, hlen, List.getElem_of_append h rfl, ?_, ?_⟩
  · intro j hj
    have hmem : seq[j] ∈ seq := List.getElem_mem hj
    generalize seq[j] = y at hmem ⊢
    rw [h] at hmem
    rcases List.mem_append.1 hmem with hx | hx
    · exact (hp _ hx).le
    · rcases List.mem_cons.1 hx with hx | hx
      · rw [hx]
      · exact hq _ hx
  · intro j hj hlt
    subst h
    rw [List.getElem_append_left hlt]
    exact hp _ (List.getElem_mem hlt)

/-- C1: for every non-empty sequence over a totally ordered type, called with
no key, `minmax(seq)` returns `(min(seq), max(seq))`: the first component is the
least value of the sequence and the second its greatest value. -/
theorem minmax_eq_min_max {E T : Type} [LinearOrder T] (seq : List T) (d : Option T)
    (hne : seq ≠ []) :
    ∃ m M, PyIU_MinMax (orderCompare E) (Args.iterable seq)
        { keyfunc := KeyFunc.NULL, defaultitem := d, unexpected := 0 } = .ok (m, M) ∧
      seq.minimum = (m : WithTop T) ∧ seq.maximum = (M : WithBot T) := by
  obtain ⟨st, hloop, ⟨_, p, q, hseq, hp, hq⟩, ⟨_, hmem, hmax⟩⟩ :=
    minmax_loop_order (@KeyFunc.NULL E T) id (fun _ => rfl) seq hne
  refine ⟨st.minitem, st.maxitem, by rw [PyIU_MinMax_iterable, hloop], ?_, ?_⟩
  · rw [List.minimum_eq_coe_iff]
    obtain ⟨i, hi, hget, hle, _⟩ := first_least_index id seq p q st.minitem hseq hp hq
    refine ⟨hget ▸ List.getElem_mem hi, ?_⟩
    intro a ha
    obtain ⟨j, hj, rfl⟩ := List.getElem_of_mem ha
    exact hle j hj
  · rw [List.maximum_eq_coe_iff]
    exact ⟨hmem, hmax⟩

/-- Witness for C1: `minmax([2,1,3,5,4]) == (1, 5)`. -/
theorem minmax_eq_min_max_witness :
    PyIU_MinMax (orderCompare Unit) (Args.iterable [2, 1, 3, 5, 4])
        { keyfunc := (KeyFunc.NULL : KeyFunc Unit Nat Nat), defaultitem := none,
          unexpected := 0 } = .ok (1, 5) ∧
    ∃ m M, PyIU_MinMax (orderCompare Unit) (Args.iterable [2, 1, 3, 5, 4])
        { keyfunc := (KeyFunc.NULL : KeyFunc Unit Nat Nat), defaultitem := none,
          unexpected := 0 } = .ok (m, M) ∧
      [2, 1, 3, 5, 4].minimum = (m : WithTop Nat) ∧
      [2, 1, 3, 5, 4].maximum = (M : WithBot Nat) :=
  ⟨rfl, minmax_eq_min_max [2, 1, 3, 5, 4] none (by decide)⟩

/-- C2: for every non-empty sequence and every key function into a totally
ordered type, `minmax(seq, key=key)` returns a pair `(m, M)` of items of `seq`
such that `key(m)` is the least and `key(M)` the greatest of the keys. -/
theorem minmax_key_eq_min_max {E T K : Type} [LinearOrder K] (key : T → K) (seq : List T)
    (d : Option T) (hne : seq ≠ []) :
    ∃ m M, PyIU_MinMax (orderCompare E) (Args.iterable seq)
        { keyfunc := KeyFunc.callable (fun x => .ok (key x)), defaultitem := d,
          unexpected := 0 } = .ok (m, M) ∧
      m ∈ seq ∧ M ∈ seq ∧
      (seq.map key).minimum = (key m : WithTop K) ∧
      (seq.map key).maximum = (key M : WithBot K) := by
  obtain ⟨st, hloop, ⟨_, p, q, hseq, hp, hq⟩, ⟨_, hmem, hmax⟩⟩ :=
    minmax_loop_order (KeyFunc.callable (fun x => (.ok (key x) : Except E K))) key
      (fun _ => rfl) seq hne
  obtain ⟨i, hi, hget, hle, _⟩ := first_least_index key seq p q st.minitem hseq hp hq
  have hmin : st.minitem ∈ seq := hget ▸ List.getElem_mem hi
  refine ⟨st.minitem, st.maxitem, by rw [PyIU_MinMax_iterable, hloop], hmin, hmem, ?_, ?_⟩
  · rw [List.minimum_eq_coe_iff]
    refine ⟨List.mem_map_of_mem key hmin, ?_⟩
    intro a ha
    obtain ⟨x, hx, rfl⟩ := List.mem_map.1 ha
    obtain ⟨j, hj, rfl⟩ := List.getElem_of_mem hx
    exact hle j hj
  · rw [List.maximum_eq_coe_iff]
    refine ⟨List.mem_map_of_mem key hmem, ?_⟩
    intro a ha
    obtain ⟨x, hx, rfl⟩ := List.mem_map.1 ha
    exact hmax x hx

/-- Witness for C2: `minmax([(3,2),(5,1),(10,3),(8,5),(3,4)], key=itemgetter(1))`
is `((5,1),(8,5))`. -/
theorem minmax_key_eq_min_max_witness :
    PyIU_MinMax (orderCompare Unit) (Args.iterable [(3, 2), (5, 1), (10, 3), (8, 5), (3, 4)])
        { keyfunc := KeyFunc.callable (fun x : Nat × Nat => .ok x.2), defaultitem := none,
          unexpected := 0 } = .ok ((5, 1), (8, 5)) ∧
    ∃ m M, PyIU_MinMax (orderCompare Unit)
        (Args.iterable [(3, 2), (5, 1), (10, 3), (8, 5), (3, 4)])
        { keyfunc := KeyFunc.callable (fun x : Nat × Nat => .ok x.2), defaultitem := none,
          unexpected := 0 } = .ok (m, M) ∧
      m ∈ [(3, 2), (5, 1), (10, 3), (8, 5), (3, 4)] ∧
      M ∈ [(3, 2), (5, 1), (10, 3), (8, 5), (3, 4)] ∧
      ([(3, 2), (5, 1), (10, 3), (8, 5), (3, 4)].map Prod.snd).minimum = (m.2 : WithTop Nat) ∧
      ([(3, 2), (5, 1), (10, 3), (8, 5), (3, 4)].map Prod.snd).maximum = (M.2 : WithBot Nat) :=
  ⟨rfl, minmax_key_eq_min_max Prod.snd [(3, 2), (5, 1), (10, 3), (8, 5), (3, 4)] none
    (by decide)⟩

/-- C3: minimum stability. For every non-empty sequence and every key into a
totally ordered type (or no key, the items being totally ordered), the item
returned as minimum is the one at position `i`, where `i` is the smallest
position whose key equals the least key: no key is smaller than the key at `i`
and every earlier position has a strictly larger key. The item type is
arbitrary, so items with equal keys may be told apart (by a tag, say). -/
theorem minmax_minimum_first {E T K : Type} [LinearOrder K] (kf : KeyFunc E T K)
    (key : T → K) (hkey : ∀ x, getval kf x = .ok (key x)) (seq : List T) (d : Option T)
    (hne : seq ≠ []) :
    ∃ i, ∃ hi : i < seq.length, ∃ M,
      PyIU_MinMax (orderCompare E) (Args.iterable seq)
        { keyfunc := kf, defaultitem := d, unexpected := 0 } = .ok (seq[i], M) ∧
      (∀ j, ∀ hj : j < seq.length, key seq[i] ≤ key seq[j]) ∧
      (∀ j, ∀ hj : j < seq.length, j < i → key seq[i] < key seq[j]) := by
  obtain ⟨st, hloop, ⟨_, p, q, hseq, hp, hq⟩, _⟩ := minmax_loop_order kf key hkey seq hne
  obtain ⟨i, hi, hget, hle, hlt⟩ := first_least_index key seq p q st.minitem hseq hp hq
  refine ⟨i, hi, st.maxitem, by rw [PyIU_MinMax_iterable, hloop, hget], ?_, ?_⟩
  · rw [hget]; exact hle
  · rw [hget]; exact hlt

/-- Witness for C3: in `minmax([5, 1, 1, 9, 9])`, the items tagged by their
position, the minimum is the `1` at position 1. -/
theorem minmax_minimum_first_witness :
    PyIU_MinMax (orderCompare Unit) (Args.iterable [(0, 5), (1, 1), (2, 1), (3, 9), (4, 9)])
        { keyfunc := KeyFunc.callable (fun x : Nat × Nat => .ok x.2), defaultitem := none,
          unexpected := 0 } = .ok ((1, 1), (3, 9)) ∧
    ∃ i, ∃ hi : i < [((0 : Nat), (5 : Nat)), (1, 1), (2, 1), (3, 9), (4, 9)].length, ∃ M,
      PyIU_MinMax (orderCompare Unit)
        (Args.iterable [(0, 5), (1, 1), (2, 1), (3, 9), (4, 9)])
        { keyfunc := KeyFunc.callable (fun x : Nat × Nat => .ok x.2), defaultitem := none,
          unexpected := 0 } = .ok ([(0, 5), (1, 1), (2, 1), (3, 9), (4, 9)][i], M) ∧
      (∀ j, ∀ hj : j < [((0 : Nat), (5 : Nat)), (1, 1), (2, 1), (3, 9), (4, 9)].length,
        ([((0 : Nat), (5 : Nat)), (1, 1), (2, 1), (3, 9), (4, 9)][i]).2 ≤
          ([((0 : Nat), (5 : Nat)), (1, 1), (2, 1), (3, 9), (4, 9)][j]).2) ∧
      (∀ j, ∀ hj : j < [((0 : Nat), (5 : Nat)), (1, 1), (2, 1), (3, 9), (4, 9)].length, j < i →
        ([((0 : Nat), (5 : Nat)), (1, 1), (2, 1), (3, 9), (4, 9)][i]).2 <
          ([((0 : Nat), (5 : Nat)), (1, 1), (2, 1), (3, 9), (4, 9)][j]).2) :=
  ⟨rfl, minmax_minimum_first
    (KeyFunc.callable (fun x : Nat × Nat => (.ok x.2 : Except Unit Nat))) Prod.snd
    (fun _ => rfl) [(0, 5), (1, 1), (2, 1), (3, 9), (4, 9)] none (by decide)⟩

/-- C4: maximum stability fails when two items tied for the greatest key are
drawn as one pair after the first pair. On `[1, 2, 9, 9]`, the items tagged by
their position, the maximum returned is the `9` at position 3, although the `9`
at position 2 has the same key: the pair is not swapped on a tie (line 165 tests
`val2 < val1`), so the later item takes the high slot and replaces the running
maximum (line 196). Hence no position `i` is both the one returned as maximum
and the first one holding the greatest key. -/
theorem minmax_maximum_tied_pair :
    PyIU_MinMax (orderCompare Unit) (Args.iterable [(0, 1), (1, 2), (2, 9), (3, 9)])
        { keyfunc := KeyFunc.callable (fun x : Nat × Nat => .ok x.2), defaultitem := none,
          unexpected := 0 } = .ok ((0, 1), (3, 9)) ∧
    ¬ ∃ i, ∃ hi : i < [((0 : Nat), (1 : Nat)), (1, 2), (2, 9), (3, 9)].length, ∃ m,
      PyIU_MinMax (orderCompare Unit) (Args.iterable [(0, 1), (1, 2), (2, 9), (3, 9)])
        { keyfunc := KeyFunc.callable (fun x : Nat × Nat => .ok x.2), defaultitem := none,
          unexpected := 0 } = .ok (m, [((0 : Nat), (1 : Nat)), (1, 2), (2, 9), (3, 9)][i]) ∧
      (∀ j, ∀ hj : j < [((0 : Nat), (1 : Nat)), (1, 2), (2, 9), (3, 9)].length,
        ([((0 : Nat), (1 : Nat)), (1, 2), (2, 9), (3, 9)][j]).2 ≤
          ([((0 : Nat), (1 : Nat)), (1, 2), (2, 9), (3, 9)][i]).2) ∧
      (∀ j, ∀ hj : j < [((0 : Nat), (1 : Nat)), (1, 2), (2, 9), (3, 9)].length, j < i →
        ([((0 : Nat), (1 : Nat)), (1, 2), (2, 9), (3, 9)][j]).2 <
          ([((0 : Nat), (1 : Nat)), (1, 2), (2, 9), (3, 9)][i]).2) := by
  refine ⟨rfl, ?_⟩
  rintro ⟨i, hi, m, h, -, hlt⟩
  rw [show PyIU_MinMax (orderCompare Unit) (Args.iterable [(0, 1), (1, 2), (2, 9), (3, 9)])
        { keyfunc := KeyFunc.callable (fun x : Nat × Nat => .ok x.2), defaultitem := none,
          unexpected := 0 } = .ok ((0, 1), (3, 9)) from rfl] at h
  have h2 : ((3 : Nat), (9 : Nat)) = [((0 : Nat), (1 : Nat)), (1, 2), (2, 9), (3, 9)][i] :=
    (Prod.mk.inj (Except.ok.inj h)).2
  have hi4 : i < 4 := hi
  have hi3 : i = 3 := by
    interval_cases i
    · simp at h2
    · simp at h2
    · simp at h2
    · rfl
  subst hi3
  have h3 := hlt 2 (by decide) (by decide)
  simp at h3

/-- C8: empty-input policy of the single-sequence form. For the empty sequence
and any key, `minmax` returns `(default, default)` when a default is given and
fails with `ValueError` (no result pair) when none is given. -/
theorem minmax_empty {E T K : Type} (cmp : K → K → CompareOp → Except E Bool)
    (kf : KeyFunc E T K) :
    (∀ d : T, PyIU_MinMax cmp (Args.iterable [])
        { keyfunc := kf, defaultitem := some d, unexpected := 0 } = .ok (d, d)) ∧
    PyIU_MinMax cmp (Args.iterable [])
        { keyfunc := kf, defaultitem := none, unexpected := 0 } = .error .ValueError :=
  ⟨fun _ => rfl, rfl⟩

/-- The loop never ends with the state unset once an item was drawn. -/
theorem minmax_loop_ne_none {E T K : Type} (cmp : K → K → CompareOp → Except E Bool)
    (kf : KeyFunc E T K) :
    ∀ (seq : List T) (st : Option (MinMaxState T K)), seq ≠ [] ∨ st ≠ none →
      minmax_loop cmp kf seq st ≠ .ok none
  | [], st, h => by
    rcases h with h | h
    · exact absurd rfl h
    · simpa [minmax_loop] using h
  | [a], st, _ => by
    simp only [minmax_loop]
    cases minmax_body cmp kf st a none <;> simp
  | a :: b :: rest, st, _ => by
    simp only [minmax_loop]
    cases minmax_body cmp kf st a (some b) with
    | error e => simp
    | ok st1 => exact minmax_loop_ne_none cmp kf rest (some st1) (Or.inr (by simp))

/-- C9: the default is used only for empty input. For every non-empty sequence,
every key and every comparison (failing or not), two calls of the
single-sequence form that differ only in the default option return the same
result, and the result is never the `ValueError` of an empty sequence. -/
theorem minmax_default_unused {E T K : Type} (cmp : K → K → CompareOp → Except E Bool)
    (kf : KeyFunc E T K) (seq : List T) (hne : seq ≠ []) (d1 d2 : Option T) :
    PyIU_MinMax cmp (Args.iterable seq) { keyfunc := kf, defaultitem := d1, unexpected := 0 } =
      PyIU_MinMax cmp (Args.iterable seq)
        { keyfunc := kf, defaultitem := d2, unexpected := 0 } ∧
    PyIU_MinMax cmp (Args.iterable seq) { keyfunc := kf, defaultitem := d1, unexpected := 0 } ≠
      .error .ValueError := by
  have h := minmax_loop_ne_none cmp kf seq none (Or.inl hne)
  rw [PyIU_MinMax_iterable, PyIU_MinMax_iterable]
  cases hl : minmax_loop cmp kf seq none with
  | error e => simp
  | ok r =>
    cases r with
    | none => exact absurd hl h
    | some st => simp

/-- Witness for C9: `minmax([3, 1, 2], default=0)` and `minmax([3, 1, 2])`. -/
theorem minmax_default_unused_witness :
    PyIU_MinMax (orderCompare Unit) (Args.iterable [3, 1, 2])
        { keyfunc := (KeyFunc.NULL : KeyFunc Unit Nat Nat), defaultitem := some 0,
          unexpected := 0 } =
      PyIU_MinMax (orderCompare Unit) (Args.iterable [3, 1, 2])
        { keyfunc := (KeyFunc.NULL : KeyFunc Unit Nat Nat), defaultitem := none,
          unexpected := 0 } ∧
    PyIU_MinMax (orderCompare Unit) (Args.iterable [3, 1, 2])
        { keyfunc := (KeyFunc.NULL : KeyFunc Unit Nat Nat), defaultitem := some 0,
          unexpected := 0 } ≠ .error .ValueError :=
  minmax_default_unused (orderCompare Unit) KeyFunc.NULL [3, 1, 2] (by decide) (some 0) none

/-- C10: variadic form. For two or more standalone values and any key, with no
default, the call with the values as positional arguments returns exactly what
the single-sequence call returns on the sequence of these values in the same
order. -/
theorem minmax_variadic {E T K : Type} (cmp : K → K → CompareOp → Except E Bool)
    (kf : KeyFunc E T K) (vals : List T) (hlen : 2 ≤ vals.length) :
    PyIU_MinMax cmp (Args.values vals) { keyfunc := kf, defaultitem := none, unexpected := 0 } =
      PyIU_MinMax cmp (Args.iterable vals)
        { keyfunc := kf, defaultitem := none, unexpected := 0 } := by
  have h1 : 1 < vals.length := hlen
  simp [PyIU_MinMax, PyTuple_Size, PyObject_GetIter, h1]

/-- Witness for C10: `minmax(2, 1, -1, 5, 4) == (-1, 5)`. -/
theorem minmax_variadic_witness :
    PyIU_MinMax (orderCompare Unit) (Args.values [2, 1, -1, 5, 4])
        { keyfunc := (KeyFunc.NULL : KeyFunc Unit Int Int), defaultitem := none,
          unexpected := 0 } = .ok (-1, 5) ∧
    PyIU_MinMax (orderCompare Unit) (Args.values [2, 1, -1, 5, 4])
        { keyfunc := (KeyFunc.NULL : KeyFunc Unit Int Int), defaultitem := none,
          unexpected := 0 } =
      PyIU_MinMax (orderCompare Unit) (Args.iterable [2, 1, -1, 5, 4])
        { keyfunc := (KeyFunc.NULL : KeyFunc Unit Int Int), defaultitem := none,
          unexpected := 0 } :=
  ⟨rfl, minmax_variadic (orderCompare Unit) KeyFunc.NULL [2, 1, -1, 5, 4] (by decide)⟩

/-! ## Properties of `clamp` -/

/-- One round of the loop of `clamp_next` when comparisons are those of a total
order: the check of `low` comes first, then the check of `high`. -/
theorem clamp_next_loop_cons {E T : Type} [LinearOrder T] (self : PyIUObject_Clamp T)
    (x : T) (rest : List T) :
    clamp_next_loop (orderCompare E) self (x :: rest) =
      if belowLow self.low (decide (self.inclusive ≠ 0)) x = true then
        (if self.remove = 0 then (.item (self.low.getD x), rest)
          else clamp_next_loop (orderCompare E) self rest)
      else if aboveHigh self.high (decide (self.inclusive ≠ 0)) x = true then
        (if self.remove = 0 then (.item (self.high.getD x), rest)
          else clamp_next_loop (orderCompare E) self rest)
      else (.item x, rest) := by
  rcases self with ⟨it, low, high, inclusive, remove⟩
  cases low <;> cases high <;> by_cases hi : inclusive = 0 <;> by_cases hr : remove = 0 <;>
    simp only [belowLow, aboveHigh, hi, hr, ne_eq, not_true_eq_false, not_false_eq_true,
      decide_True, decide_False, if_true, if_false, Bool.false_eq_true, decide_eq_true_eq,
      Option.getD_some, ge_iff_le, gt_iff_lt] <;>
    (try split_ifs) <;>
    simp [clamp_next_loop, orderCompare, *]

/-- Remove mode: the loop of `clamp_next` skips the out-of-range items at the
front and stops at the first in-range item, or runs to exhaustion. -/
theorem clamp_next_loop_remove {E T : Type} [LinearOrder T] (self : PyIUObject_Clamp T)
    (hr : self.remove ≠ 0) :
    ∀ src : List T,
      (clamp_next_loop (orderCompare E) self src = (.exhausted, []) ∧
        src.filter (inRange self.low self.high (decide (self.inclusive ≠ 0))) = []) ∨
      (∃ x rest, clamp_next_loop (orderCompare E) self src = (.item x, rest) ∧
        rest.length < src.length ∧
        src.filter (inRange self.low self.high (decide (self.inclusive ≠ 0))) =
          x :: rest.filter (inRange self.low self.high (decide (self.inclusive ≠ 0))))
  | [] => Or.inl ⟨by simp [clamp_next_loop], rfl⟩
  | x :: rest => by
    have ih := @clamp_next_loop_remove E T _ self hr rest
    rw [clamp_next_loop_cons]
    by_cases hb : belowLow self.low (decide (self.inclusive ≠ 0)) x = true
    · have hx : inRange self.low self.high (decide (self.inclusive ≠ 0)) x = false := by
        unfold inRange
        rw [hb]
        rfl
      rw [if_pos hb, if_neg hr, List.filter_cons_of_neg (by rw [hx]; exact Bool.false_ne_true)]
      rcases ih with ih | ⟨y, r, h1, h2, h3⟩
      · exact Or.inl ih
      · exact Or.inr ⟨y, r, h1, Nat.lt_succ_of_lt h2, h3⟩
    · rw [if_neg hb]
      have hb1 : belowLow self.low (decide (self.inclusive ≠ 0)) x = false :=
        Bool.eq_false_iff.2 hb
      by_cases ha : aboveHigh self.high (decide (self.inclusive ≠ 0)) x = true
      · have hx : inRange self.low self.high (decide (self.inclusive ≠ 0)) x = false := by
          unfold inRange
          rw [hb1, ha]
          rfl
        rw [if_pos ha, if_neg hr, List.filter_cons_of_neg (by rw [hx]; exact Bool.false_ne_true)]
        rcases ih with ih | ⟨y, r, h1, h2, h3⟩
        · exact Or.inl ih
        · exact Or.inr ⟨y, r, h1, Nat.lt_succ_of_lt h2, h3⟩
      · have ha1 : aboveHigh self.high (decide (self.inclusive ≠ 0)) x = false :=
          Bool.eq_false_iff.2 ha
        have hx : inRange self.low self.high (decide (self.inclusive ≠ 0)) x = true := by
          unfold inRange
          rw [hb1, ha1]
          rfl
        rw [if_neg ha, List.filter_cons_of_pos hx]
        exact Or.inr ⟨x, rest, rfl, Nat.lt_succ_self _, rfl⟩

/-- Remove mode: with more fuel than items left, draining yields the in-range
items in order. -/
theorem drain_remove {E T : Type} [LinearOrder T] :
    ∀ (fuel : Nat) (self : PyIUObject_Clamp T), self.remove ≠ 0 →
      self.iterator.length < fuel →
      drain (orderCompare E) fuel self = some (.ok
        (self.iterator.filter (inRange self.low self.high (decide (self.inclusive ≠ 0)))))
  | 0, _, _, h => absurd h (Nat.not_lt_zero _)
  | fuel + 1, self, hr, h => by
    rcases @clamp_next_loop_remove E T _ self hr self.iterator with ⟨h1, h2⟩ | ⟨x, rest, h1, h2, h3⟩
    · simp only [drain, clamp_next, h1]
      rw [h2]
    · have ih := @drain_remove E T _ fuel { self with iterator := rest } hr
        (Nat.lt_of_lt_of_le h2 (Nat.le_of_lt_succ h))
      simp only [drain, clamp_next, h1, h3]
      rw [ih]

/-- Remove mode: the full output of a freshly built clamp is the source
filtered by the in-range predicate. -/
theorem clamp_list_remove {E T : Type} [LinearOrder T] (src : List T)
    (low high : Option T) (inclusive remove : Int) (hr : remove ≠ 0) :
    clamp_list (orderCompare E) (clamp_new src low high inclusive remove) =
      some (.ok (src.filter (inRange low high (decide (inclusive ≠ 0))))) :=
  drain_remove (src.length + 1) (clamp_new src low high inclusive remove) hr
    (Nat.lt_succ_self _)

/-- C5: for every source over a totally ordered type and every configuration in
Remove mode (each bound present or absent, any `inclusive`), the full output of
the clamp is the source filtered, in order, by the in-range predicate: an item
is kept iff it is not below `low` and not above `high`, an absent bound
removing nothing. -/
theorem clamp_remove_eq_filter {E T : Type} [LinearOrder T] (src : List T)
    (low high : Option T) (inclusive remove : Int) (hr : remove ≠ 0) :
    clamp_list (orderCompare E) (clamp_new src low high inclusive remove) =
      some (.ok (src.filter (inRange low high (decide (inclusive ≠ 0))))) :=
  clamp_list_remove src low high inclusive remove hr

set_option maxRecDepth 20000 in
/-- Witness for C5: `clamp(range(1000), low=2, high=8, inclusive=True)` is
`[3,4,5,6,7]`, and `clamp(range(5), high=2)` is `[0,1,2]`. -/
theorem clamp_remove_eq_filter_witness :
    clamp_list (orderCompare Unit) (clamp_new (List.range 1000) (some 2) (some 8) 1 1) =
      some (.ok [3, 4, 5, 6, 7]) ∧
    clamp_list (orderCompare Unit) (clamp_new (List.range 5) none (some 2) 0 1) =
      some (.ok [0, 1, 2]) ∧
    clamp_list (orderCompare Unit) (clamp_new (List.range 1000) (some 2) (some 8) 1 1) =
      some (.ok ((List.range 1000).filter
        (inRange (some 2) (some 8) (decide ((1 : Int) ≠ 0))))) :=
  ⟨rfl, rfl, clamp_remove_eq_filter (List.range 1000) (some 2) (some 8) 1 1 (by decide)⟩

/-- Replace mode: every call of `clamp_next` on a non-exhausted source consumes
exactly one item and puts out its replacement. -/
theorem drain_replace {E T : Type} [LinearOrder T] :
    ∀ (fuel : Nat) (self : PyIUObject_Clamp T), self.remove = 0 →
      self.iterator.length < fuel →
      drain (orderCompare E) fuel self = some (.ok
        (self.iterator.map (replaced self.low self.high (decide (self.inclusive ≠ 0)))))
  | 0, _, _, h => absurd h (Nat.not_lt_zero _)
  | fuel + 1, self, hr, h => by
    cases hit : self.iterator with
    | nil => simp [drain, clamp_next, hit, clamp_next_loop]
    | cons x rest =>
      have hlen : rest.length < fuel := by
        rw [hit] at h
        exact Nat.lt_of_succ_lt_succ h
      have ih := @drain_replace E T _ fuel { self with iterator := rest } hr hlen
      have hstep : clamp_next_loop (orderCompare E) self (x :: rest) =
          (.item (replaced self.low self.high (decide (self.inclusive ≠ 0)) x), rest) := by
        rw [clamp_next_loop_cons]
        unfold replaced
        split_ifs <;> rfl
      simp only [drain, clamp_next, hit, hstep, List.map_cons]
      rw [ih]

/-- With well-formed bounds the replacement follows the specification's rule,
whichever bound is tested first. -/
theorem replaced_spec {T : Type} [LinearOrder T] (low high : Option T) (inclusive : Bool)
    (hwf : ∀ l h, low = some l → high = some h → l ≤ h) (x : T) :
    ReplacedBy low high inclusive x (replaced low high inclusive x) := by
  refine ⟨?_, ?_, ?_⟩
  · intro hb
    cases low with
    | none => simp [belowLow] at hb
    | some l => simp [replaced, hb]
  · intro ha
    cases high with
    | none => simp [aboveHigh] at ha
    | some h =>
      by_cases hb : belowLow low inclusive x = true
      · cases low with
        | none => simp [belowLow] at hb
        | some l =>
          have hlh : l ≤ h := hwf l h rfl rfl
          have : l = h := by
            cases inclusive
            · simp [belowLow, aboveHigh] at hb ha
              exact absurd (lt_of_lt_of_le (lt_trans ha hb) hlh) (lt_irrefl _)
            · simp [belowLow, aboveHigh] at hb ha
              exact le_antisymm hlh (le_trans ha hb)
          subst this
          simp [replaced, hb]
      · simp [replaced, hb, ha]
  · intro hb ha
    simp [replaced, hb, ha]

/-- C6: for every source over a totally ordered type and every configuration in
Replace mode with well-formed bounds (`low <= high` when both are present), the
output has exactly as many items as the source, and item by item it is `low`
where the source item is below `low`, `high` where it is above `high`, and the
source item itself otherwise. -/
theorem clamp_replace_pointwise {E T : Type} [LinearOrder T] (src : List T)
    (low high : Option T) (inclusive : Int)
    (hwf : ∀ l h, low = some l → high = some h → l ≤ h) :
    ∃ out, clamp_list (orderCompare E) (clamp_new src low high inclusive 0) = some (.ok out) ∧
      out.length = src.length ∧
      List.Forall₂ (ReplacedBy low high (decide (inclusive ≠ 0))) src out := by
  refine ⟨src.map (replaced low high (decide (inclusive ≠ 0))), ?_, by simp, ?_⟩
  · exact drain_replace (src.length + 1) (clamp_new src low high inclusive 0) rfl
      (Nat.lt_succ_self _)
  · rw [List.forall₂_map_right_iff, List.forall₂_same]
    intro x _
    exact replaced_spec low high _ hwf x

/-- Witness for C6: `clamp(range(10), low=4, high=8, remove=False)` is
`[4,4,4,4,4,5,6,7,8,8]`. -/
theorem clamp_replace_pointwise_witness :
    clamp_list (orderCompare Unit) (clamp_new (List.range 10) (some 4) (some 8) 0 0) =
      some (.ok [4, 4, 4, 4, 4, 5, 6, 7, 8, 8]) ∧
    ∃ out, clamp_list (orderCompare Unit) (clamp_new (List.range 10) (some 4) (some 8) 0 0) =
        some (.ok out) ∧
      out.length = (List.range 10).length ∧
      List.Forall₂ (ReplacedBy (some 4) (some 8) (decide ((0 : Int) ≠ 0))) (List.range 10) out :=
  ⟨rfl, clamp_replace_pointwise (List.range 10) (some 4) (some 8) 0
    (fun l h hl hh => by
      cases hl
      cases hh
      decide)⟩

/-- Counterexample to C7 as stated for every mode: with only `low=2` set and
`remove=False`, `clamp([0,1,2,3,4], low=2)` puts out `[2,2,2,3,4]`, which is not
the source filtered by `element >= low`. -/
theorem clamp_only_low_replace_counterexample :
    clamp_list (orderCompare Unit) (clamp_new [0, 1, 2, 3, 4] (some 2) none 0 0) =
      some (.ok [2, 2, 2, 3, 4]) ∧
    clamp_list (orderCompare Unit) (clamp_new [0, 1, 2, 3, 4] (some 2) none 0 0) ≠
      some (.ok ([0, 1, 2, 3, 4].filter (fun x => decide (x ≥ 2)))) := by
  refine ⟨rfl, ?_⟩
  rw [show clamp_list (orderCompare Unit) (clamp_new [0, 1, 2, 3, 4] (some 2) none 0 0) =
    some (.ok [2, 2, 2, 3, 4]) from rfl]
  intro h
  have h1 : [2, 2, 2, 3, 4] = [0, 1, 2, 3, 4].filter (fun x => decide (x ≥ 2)) :=
    Except.ok.inj (Option.some.inj h)
  revert h1
  decide

/-- C7, amended to Remove mode: for every source over a totally ordered type
and every configuration in which only `low` is set and the mode is Remove (any
`inclusive`), the output is the source filtered by `element >= low` when
`inclusive` is false and by `element > low` when it is true, order kept. -/
theorem clamp_only_low_remove {E T : Type} [LinearOrder T] (src : List T) (low : T)
    (inclusive remove : Int) (hr : remove ≠ 0) :
    clamp_list (orderCompare E) (clamp_new src (some low) none inclusive remove) =
      some (.ok (src.filter
        (fun x => if inclusive ≠ 0 then decide (x > low) else decide (x ≥ low)))) := by
  rw [clamp_list_remove src (some low) none inclusive remove hr]
  congr 2
  apply List.filter_congr
  intro x _
  by_cases hi : inclusive = 0
  · simp only [inRange, belowLow, aboveHigh, hi, ne_eq, not_true_eq_false, decide_False,
      if_false, Bool.false_eq_true, Bool.not_false, Bool.and_true, ge_iff_le]
    by_cases h : low ≤ x
    · simp [h, not_lt.2 h]
    · simp [h, not_le.1 h]
  · simp only [inRange, belowLow, aboveHigh, hi, ne_eq, not_false_eq_true, decide_True,
      if_true, Bool.not_false, Bool.and_true, gt_iff_lt]
    by_cases h : low < x
    · simp [h, not_le.2 h]
    · simp [h, not_lt.1 h]

/-- Witness for C7: `clamp([0,1,2,3,4], low=2)` is `[2,3,4]`. -/
theorem clamp_only_low_remove_witness :
    clamp_list (orderCompare Unit) (clamp_new [0, 1, 2, 3, 4] (some 2) none 0 1) =
      some (.ok [2, 3, 4]) ∧
    clamp_list (orderCompare Unit) (clamp_new [0, 1, 2, 3, 4] (some 2) none 0 1) =
      some (.ok ([0, 1, 2, 3, 4].filter
        (fun x => if (0 : Int) ≠ 0 then decide (x > 2) else decide (x ≥ 2)))) :=
  ⟨rfl, clamp_only_low_remove [0, 1, 2, 3, 4] 2 0 1 (by decide)⟩

/-! ## Properties of the logged scan -/

theorem traced_bind_result {E α β : Type} (x : Traced E α) (f : α → Traced E β) :
    (x >>= f).result = x.result >>= fun a => (f a).result := by
  show (Traced.bind x f).result = _
  unfold Traced.bind
  cases x.result <;> rfl

theorem traced_pure_result {E α : Type} (a : α) :
    (pure a : Traced E α).result = .ok a :=
  rfl

theorem traced_pure_log {E α : Type} (a : α) : (pure a : Traced E α).log = [] :=
  rfl

theorem getval_traced_result {E T K : Type} (kf : KeyFunc E T K) (item : T) :
    (getval_traced kf item).result = getval kf item := by
  cases kf <;> rfl

theorem compare_traced_result {E K : Type} (cmp : K → K → CompareOp → Except E Bool)
    (a b : K) (op : CompareOp) : (compare_traced cmp a b op).result = cmp a b op :=
  rfl

/-- Dropping the log of the update gives back `minmax_update`. -/
theorem minmax_update_traced_result {E T K : Type}
    (cmp : K → K → CompareOp → Except E Bool) (st : MinMaxState T K) (v1 : K) (i1 : T)
    (v2 : K) (i2 : T) :
    (minmax_update_traced cmp st v1 i1 v2 i2).result = minmax_update cmp st v1 i1 v2 i2 := by
  simp only [minmax_update_traced, minmax_update, traced_bind_result, traced_pure_result,
    compare_traced_result]
  rfl

/-- Dropping the log of the loop body gives back `minmax_body`. -/
theorem minmax_body_traced_result {E T K : Type}
    (cmp : K → K → CompareOp → Except E Bool) (kf : KeyFunc E T K)
    (st : Option (MinMaxState T K)) (item1 : T) (item2 : Option T) :
    (minmax_body_traced cmp kf st item1 item2).result = minmax_body cmp kf st item1 item2 := by
  cases item2 <;> cases st <;>
    simp only [minmax_body_traced, minmax_body, traced_bind_result, traced_pure_result,
      compare_traced_result, getval_traced_result, minmax_update_traced_result, apply_ite] <;>
    rfl

/-- Dropping the log of the loop gives back `minmax_loop`. -/
theorem minmax_loop_traced_result {E T K : Type}
    (cmp : K → K → CompareOp → Except E Bool) (kf : KeyFunc E T K) :
    ∀ (seq : List T) (st : Option (MinMaxState T K)),
      (minmax_loop_traced cmp kf seq st).result = minmax_loop cmp kf seq st
  | [], _ => rfl
  | [a], st => by
    simp only [minmax_loop_traced, minmax_loop, traced_bind_result, traced_pure_result,
      minmax_body_traced_result]
    cases minmax_body cmp kf st a none <;> rfl
  | a :: b :: rest, st => by
    simp only [minmax_loop_traced, minmax_loop, traced_bind_result,
      minmax_body_traced_result]
    cases minmax_body cmp kf st a (some b) with
    | error e => rfl
    | ok st1 => exact minmax_loop_traced_result cmp kf rest (some st1)

/-- Dropping the log of the logged `PyIU_MinMax` gives back `PyIU_MinMax`. -/
theorem PyIU_MinMax_traced_result {E T K : Type} (cmp : K → K → CompareOp → Except E Bool)
    (args : Args T) (kwargs : Kwargs E T K) :
    (PyIU_MinMax_traced cmp args kwargs).2 = PyIU_MinMax cmp args kwargs := by
  unfold PyIU_MinMax_traced PyIU_MinMax
  simp only []
  split_ifs
  · rfl
  · rfl
  · rfl
  · cases PyObject_GetIter args with
    | none => rfl
    | some iterator =>
      simp only [minmax_loop_traced_result]

theorem wellLogged_pure {E α : Type} (a : α) : WellLogged (pure a : Traced E α) := by
  intro ev hev
  exact absurd hev (List.not_mem_nil ev)

theorem wellLogged_compare {E K : Type} (cmp : K → K → CompareOp → Except E Bool)
    (a b : K) (op : CompareOp) : WellLogged (compare_traced cmp a b op) := by
  unfold WellLogged compare_traced
  cases h : cmp a b op with
  | ok v =>
    intro ev hev
    rw [List.mem_singleton.1 hev]
    rfl
  | error e => exact ⟨[], _, rfl, rfl, fun y hy => absurd hy (List.not_mem_nil y)⟩

theorem wellLogged_getval {E T K : Type} (kf : KeyFunc E T K) (item : T) :
    WellLogged (getval_traced kf item) := by
  cases kf with
  | NULL => exact wellLogged_pure item
  | callable f =>
    show FailsLast [Event.call_key (raisedBy (f item))] (raisedBy (f item))
    cases f item with
    | ok v =>
      intro ev hev
      rw [List.mem_singleton.1 hev]
      rfl
    | error e => exact ⟨[], _, rfl, rfl, fun y hy => absurd hy (List.not_mem_nil y)⟩

theorem wellLogged_bind {E α β : Type} (x : Traced E α) (f : α → Traced E β)
    (hx : WellLogged x) (hf : ∀ a, WellLogged (f a)) : WellLogged (x >>= f) := by
  show WellLogged (Traced.bind x f)
  unfold WellLogged Traced.bind at *
  cases hr : x.result with
  | error e =>
    rw [hr] at hx
    exact hx
  | ok a =>
    rw [hr] at hx
    have hfa := hf a
    simp only []
    cases hfr : (f a).result with
    | ok b =>
      rw [hfr] at hfa
      intro ev hev
      rcases List.mem_append.1 hev with h | h
      · exact hx ev h
      · exact hfa ev h
    | error e =>
      rw [hfr] at hfa
      obtain ⟨pre, ev, hlog, hev, hpre⟩ := hfa
      refine ⟨x.log ++ pre, ev, by rw [hlog, List.append_assoc], hev, ?_⟩
      intro y hy
      rcases List.mem_append.1 hy with h | h
      · exact hx y h
      · exact hpre y h

theorem wellLogged_update {E T K : Type} (cmp : K → K → CompareOp → Except E Bool)
    (st : MinMaxState T K) (v1 : K) (i1 : T) (v2 : K) (i2 : T) :
    WellLogged (minmax_update_traced cmp st v1 i1 v2 i2) := by
  unfold minmax_update_traced
  refine wellLogged_bind _ _ (wellLogged_compare _ _ _ _) (fun lt => ?_)
  refine wellLogged_bind _ _ (wellLogged_compare _ _ _ _) (fun gt => ?_)
  exact wellLogged_pure _

theorem wellLogged_body {E T K : Type} (cmp : K → K → CompareOp → Except E Bool)
    (kf : KeyFunc E T K) (st : Option (MinMaxState T K)) (item1 : T) (item2 : Option T) :
    WellLogged (minmax_body_traced cmp kf st item1 item2) := by
  unfold minmax_body_traced
  refine wellLogged_bind _ _ (wellLogged_getval _ _) (fun val1 => ?_)
  cases item2 with
  | none =>
    cases st with
    | none => exact wellLogged_pure _
    | some st => exact wellLogged_update _ _ _ _ _ _
  | some item2 =>
    refine wellLogged_bind _ _ (wellLogged_getval _ _) (fun val2 => ?_)
    cases st with
    | none =>
      refine wellLogged_bind _ _ (wellLogged_compare _ _ _ _) (fun lt => ?_)
      cases lt with
      | true => exact wellLogged_pure _
      | false =>
        refine wellLogged_bind _ _ (wellLogged_compare _ _ _ _) (fun gt => ?_)
        cases gt <;> exact wellLogged_pure _
    | some st =>
      refine wellLogged_bind _ _ (wellLogged_compare _ _ _ _) (fun lt => ?_)
      cases lt <;> exact wellLogged_update _ _ _ _ _ _

theorem wellLogged_loop {E T K : Type} (cmp : K → K → CompareOp → Except E Bool)
    (kf : KeyFunc E T K) :
    ∀ (seq : List T) (st : Option (MinMaxState T K)),
      WellLogged (minmax_loop_traced cmp kf seq st)
  | [], st => wellLogged_pure st
  | [a], st => by
    unfold minmax_loop_traced
    exact wellLogged_bind _ _ (wellLogged_body _ _ _ _ _) (fun st1 => wellLogged_pure _)
  | a :: b :: rest, st => by
    unfold minmax_loop_traced
    exact wellLogged_bind _ _ (wellLogged_body _ _ _ _ _)
      (fun st1 => wellLogged_loop cmp kf rest (some st1))

theorem comparisons_bind_le {E α β : Type} (x : Traced E α) (f : α → Traced E β) (m n : Nat)
    (hx : comparisons x.log ≤ m) (hf : ∀ a, comparisons (f a).log ≤ n) :
    comparisons (x >>= f).log ≤ m + n := by
  show comparisons (Traced.bind x f).log ≤ m + n
  unfold Traced.bind
  cases x.result with
  | error e => exact Nat.le_trans hx (Nat.le_add_right m n)
  | ok a =>
    show comparisons (x.log ++ (f a).log) ≤ m + n
    unfold comparisons at *
    rw [List.countP_append]
    exact Nat.add_le_add hx (hf a)

theorem comparisons_compare {E K : Type} (cmp : K → K → CompareOp → Except E Bool)
    (a b : K) (op : CompareOp) : comparisons (compare_traced cmp a b op).log ≤ 1 := by
  simp [comparisons, compare_traced, Event.isCompare]

theorem comparisons_getval {E T K : Type} (kf : KeyFunc E T K) (item : T) :
    comparisons (getval_traced kf item).log ≤ 0 := by
  cases kf with
  | NULL => exact Nat.le_refl 0
  | callable f =>
    show comparisons [Event.call_key (raisedBy (f item))] ≤ 0
    simp [comparisons, Event.isCompare]

theorem comparisons_pure {E α : Type} (a : α) : comparisons (pure a : Traced E α).log ≤ 0 :=
  Nat.le_refl 0

/-- The update of the running minimum and maximum makes at most two
comparisons. -/
theorem comparisons_update {E T K : Type} (cmp : K → K → CompareOp → Except E Bool)
    (st : MinMaxState T K) (v1 : K) (i1 : T) (v2 : K) (i2 : T) :
    comparisons (minmax_update_traced cmp st v1 i1 v2 i2).log ≤ 2 := by
  unfold minmax_update_traced
  refine comparisons_bind_le _ _ 1 1 (comparisons_compare _ _ _ _) (fun lt => ?_)
  refine comparisons_bind_le _ _ 1 0 (comparisons_compare _ _ _ _) (fun gt => ?_)
  exact comparisons_pure _

/-- Comparisons in one round: at most two in the first round, at most three in a
later round that drew two items, at most two for the odd tail. -/
theorem comparisons_body {E T K : Type} (cmp : K → K → CompareOp → Except E Bool)
    (kf : KeyFunc E T K) (st : Option (MinMaxState T K)) (item1 : T) (item2 : Option T) :
    comparisons (minmax_body_traced cmp kf st item1 item2).log ≤
      match st, item2 with
      | none, none => 0
      | none, some _ => 2
      | some _, none => 2
      | some _, some _ => 3 := by
  unfold minmax_body_traced
  cases item2 with
  | none =>
    cases st with
    | none =>
      exact comparisons_bind_le _ _ 0 0 (comparisons_getval _ _) (fun val1 => comparisons_pure _)
    | some st =>
      exact comparisons_bind_le _ _ 0 2 (comparisons_getval _ _)
        (fun val1 => comparisons_update _ _ _ _ _ _)
  | some item2 =>
    cases st with
    | none =>
      refine comparisons_bind_le _ _ 0 2 (comparisons_getval _ _) (fun val1 => ?_)
      refine comparisons_bind_le _ _ 0 2 (comparisons_getval _ _) (fun val2 => ?_)
      refine comparisons_bind_le _ _ 1 1 (comparisons_compare _ _ _ _) (fun lt => ?_)
      cases lt with
      | true => exact Nat.le_trans (comparisons_pure _) (Nat.zero_le 1)
      | false =>
        refine comparisons_bind_le _ _ 1 0 (comparisons_compare _ _ _ _) (fun gt => ?_)
        cases gt <;> exact comparisons_pure _
    | some st =>
      refine comparisons_bind_le _ _ 0 3 (comparisons_getval _ _) (fun val1 => ?_)
      refine comparisons_bind_le _ _ 0 3 (comparisons_getval _ _) (fun val2 => ?_)
      refine comparisons_bind_le _ _ 1 2 (comparisons_compare _ _ _ _) (fun lt => ?_)
      cases lt <;> exact comparisons_update _ _ _ _ _ _

/-- Comparisons of the loop once the running minimum and maximum are set. -/
theorem comparisons_loop_some {E T K : Type} (cmp : K → K → CompareOp → Except E Bool)
    (kf : KeyFunc E T K) :
    ∀ (seq : List T) (st : MinMaxState T K),
      2 * comparisons (minmax_loop_traced cmp kf seq (some st)).log ≤ 3 * seq.length + 1
  | [], st => by
    show 2 * comparisons ([] : List (Event E)) ≤ 3 * 0 + 1
    simp [comparisons]
  | [a], st => by
    unfold minmax_loop_traced
    have h := comparisons_bind_le (minmax_body_traced cmp kf (some st) a none)
      (fun st1 => (pure (some st1) : Traced E (Option (MinMaxState T K)))) 2 0
      (comparisons_body cmp kf (some st) a none) (fun st1 => comparisons_pure _)
    simp only [List.length_singleton]
    omega
  | a :: b :: rest, st => by
    unfold minmax_loop_traced
    have h := comparisons_bind_le (minmax_body_traced cmp kf (some st) a (some b))
      (fun st1 => minmax_loop_traced cmp kf rest (some st1)) 3 ((3 * rest.length + 1) / 2)
      (comparisons_body cmp kf (some st) a (some b))
      (fun st1 => by
        show comparisons (minmax_loop_traced cmp kf rest (some st1)).log ≤ _
        have := comparisons_loop_some cmp kf rest st1
        omega)
    simp only [List.length_cons]
    omega

/-- Comparisons of the whole loop: at most one and a half per item. -/
theorem comparisons_loop {E T K : Type} (cmp : K → K → CompareOp → Except E Bool)
    (kf : KeyFunc E T K) (seq : List T) :
    2 * comparisons (minmax_loop_traced cmp kf seq none).log ≤ 3 * seq.length := by
  match seq with
  | [] =>
    show 2 * comparisons ([] : List (Event E)) ≤ 3 * 0
    simp [comparisons]
  | [a] =>
    unfold minmax_loop_traced
    have h := comparisons_bind_le (minmax_body_traced cmp kf none a none)
      (fun st1 => (pure (some st1) : Traced E (Option (MinMaxState T K)))) 0 0
      (comparisons_body cmp kf none a none) (fun st1 => comparisons_pure _)
    simp only [List.length_singleton]
    omega
  | a :: b :: rest =>
    unfold minmax_loop_traced
    have h := comparisons_bind_le (minmax_body_traced cmp kf none a (some b))
      (fun st1 => minmax_loop_traced cmp kf rest (some st1)) 2 ((3 * rest.length + 1) / 2)
      (comparisons_body cmp kf none a (some b))
      (fun st1 => by
        show comparisons (minmax_loop_traced cmp kf rest (some st1)).log ≤ _
        have := comparisons_loop_some cmp kf rest st1
        omega)
    simp only [List.length_cons]
    omega

/-- The log of the logged `PyIU_MinMax` is empty when an argument check fails,
and is the log of the loop otherwise. -/
theorem PyIU_MinMax_traced_log {E T K : Type} (cmp : K → K → CompareOp → Except E Bool)
    (args : Args T) (kwargs : Kwargs E T K) :
    PyIU_MinMax_traced cmp args kwargs = ([], .error .TypeError) ∨
    ∃ iterator, PyObject_GetIter args = some iterator ∧
      (PyIU_MinMax_traced cmp args kwargs).1 =
        (minmax_loop_traced cmp kwargs.keyfunc iterator none).log ∧
      ∀ e, (minmax_loop_traced cmp kwargs.keyfunc iterator none).result = .error e →
        (PyIU_MinMax_traced cmp args kwargs).2 = .error (.Raised e) := by
  unfold PyIU_MinMax_traced
  simp only []
  split_ifs
  · exact Or.inl rfl
  · exact Or.inl rfl
  · exact Or.inl rfl
  · cases PyObject_GetIter args with
    | none => exact Or.inl rfl
    | some iterator =>
      refine Or.inr ⟨iterator, rfl, rfl, ?_⟩
      intro e he
      simp only [he]

/-- C11: conflicting arguments. Every call with two or more positional values
together with a default fails with `TypeError` (the specification's
ConfigurationError) and returns no pair, whatever the values, the default, the
key, the comparison and the other keywords are; the log of the call is empty,
so the failure is decided before any key is derived or any item compared. -/
theorem minmax_default_with_positional {E T K : Type}
    (cmp : K → K → CompareOp → Except E Bool) (kf : KeyFunc E T K) (vals : List T) (d : T)
    (n : Nat) (hlen : 2 ≤ vals.length) :
    PyIU_MinMax cmp (Args.values vals)
        { keyfunc := kf, defaultitem := some d, unexpected := n } = .error .TypeError ∧
    PyIU_MinMax_traced cmp (Args.values vals)
        { keyfunc := kf, defaultitem := some d, unexpected := n } = ([], .error .TypeError) := by
  have h1 : 1 < vals.length := hlen
  constructor
  · simp [PyIU_MinMax, PyTuple_Size, h1]
  · simp [PyIU_MinMax_traced, PyTuple_Size, h1]

/-- Witness for C11: `minmax(1, 2, 3, default=0)` raises `TypeError`. -/
theorem minmax_default_with_positional_witness :
    PyIU_MinMax (orderCompare Unit) (Args.values [1, 2, 3])
        { keyfunc := (KeyFunc.NULL : KeyFunc Unit Nat Nat), defaultitem := some 0,
          unexpected := 0 } = .error .TypeError ∧
    PyIU_MinMax_traced (orderCompare Unit) (Args.values [1, 2, 3])
        { keyfunc := (KeyFunc.NULL : KeyFunc Unit Nat Nat), defaultitem := some 0,
          unexpected := 0 } = ([], .error .TypeError) :=
  minmax_default_with_positional (orderCompare Unit) KeyFunc.NULL [1, 2, 3] 0 0 (by decide)

/-- C12: comparison faults. For every call, if any key derivation or any
comparison made by the scan fails, then the failed call is the last one the
scan makes, every call before it succeeded, and `minmax` returns the exception
`e` of that call: no pair, neither the candidates so far nor the default. -/
theorem minmax_fault_aborts {E T K : Type} (cmp : K → K → CompareOp → Except E Bool)
    (args : Args T) (kwargs : Kwargs E T K)
    (hfail : ∃ ev ∈ (PyIU_MinMax_traced cmp args kwargs).1, ev.raised ≠ none) :
    ∃ e pre ev, (PyIU_MinMax_traced cmp args kwargs).1 = pre ++ [ev] ∧
      ev.raised = some e ∧ (∀ y ∈ pre, y.raised = none) ∧
      PyIU_MinMax cmp args kwargs = .error (.Raised e) := by
  obtain ⟨ev0, hmem, hraised⟩ := hfail
  rcases PyIU_MinMax_traced_log cmp args kwargs with h | ⟨iterator, _, hlog, hres⟩
  · rw [h] at hmem
    exact absurd hmem (List.not_mem_nil ev0)
  · have hwell := wellLogged_loop cmp kwargs.keyfunc iterator none
    unfold WellLogged at hwell
    rw [hlog] at hmem
    cases hr : (minmax_loop_traced cmp kwargs.keyfunc iterator none).result with
    | ok v =>
      rw [hr] at hwell
      exact absurd (hwell ev0 hmem) hraised
    | error e =>
      rw [hr] at hwell
      obtain ⟨pre, ev, h1, h2, h3⟩ := hwell
      refine ⟨e, pre, ev, by rw [hlog, h1], h2, h3, ?_⟩
      rw [← PyIU_MinMax_traced_result]
      exact hres e hr

/-- Witness for C12: a key function that raises on the third of five items. The
scan stops at that call, after two key calls and two comparisons, and returns
the exception. -/
theorem minmax_fault_aborts_witness :
    PyIU_MinMax_traced (orderCompare Unit)
        (Args.iterable [((3 : Nat), (2 : Nat)), (5, 1), (10, 3), (8, 5), (3, 4)])
        { keyfunc := KeyFunc.callable
            (fun x : Nat × Nat => if x.1 = 10 then .error () else .ok x.2),
          defaultitem := some (0, 0), unexpected := 0 } =
      ([.call_key none, .call_key none, .compare none, .compare none, .call_key (some ())],
        .error (.Raised ())) ∧
    ∃ e pre ev, (PyIU_MinMax_traced (orderCompare Unit)
        (Args.iterable [((3 : Nat), (2 : Nat)), (5, 1), (10, 3), (8, 5), (3, 4)])
        { keyfunc := KeyFunc.callable
            (fun x : Nat × Nat => if x.1 = 10 then .error () else .ok x.2),
          defaultitem := some (0, 0), unexpected := 0 }).1 = pre ++ [ev] ∧
      ev.raised = some e ∧ (∀ y ∈ pre, y.raised = none) ∧
      PyIU_MinMax (orderCompare Unit)
        (Args.iterable [((3 : Nat), (2 : Nat)), (5, 1), (10, 3), (8, 5), (3, 4)])
        { keyfunc := KeyFunc.callable
            (fun x : Nat × Nat => if x.1 = 10 then .error () else .ok x.2),
          defaultitem := some (0, 0), unexpected := 0 } = .error (.Raised e) :=
  ⟨rfl, minmax_fault_aborts (orderCompare Unit)
    (Args.iterable [((3 : Nat), (2 : Nat)), (5, 1), (10, 3), (8, 5), (3, 4)])
    { keyfunc := KeyFunc.callable
        (fun x : Nat × Nat => if x.1 = 10 then .error () else .ok x.2),
      defaultitem := some (0, 0), unexpected := 0 }
    ⟨.call_key (some ()),
      (show Event.call_key (some ()) ∈
        [Event.call_key none, .call_key none, .compare none, .compare none,
          .call_key (some ())] from by decide),
      by decide⟩⟩

/-- C15: comparison budget. For every sequence of `N` items, whatever their
order and ties, the scan makes at most `1.5 * N` rich comparisons (twice the
count is at most three times `N`), in the single-sequence form and in the
variadic form; this holds for every key and every comparison, failing or not,
and the logged run returns what `PyIU_MinMax` returns. -/
theorem minmax_comparison_budget {E T K : Type} (cmp : K → K → CompareOp → Except E Bool)
    (seq : List T) (kwargs : Kwargs E T K) :
    2 * comparisons (PyIU_MinMax_traced cmp (Args.iterable seq) kwargs).1 ≤ 3 * seq.length ∧
    2 * comparisons (PyIU_MinMax_traced cmp (Args.values seq) kwargs).1 ≤ 3 * seq.length ∧
    (PyIU_MinMax_traced cmp (Args.iterable seq) kwargs).2 =
      PyIU_MinMax cmp (Args.iterable seq) kwargs := by
  refine ⟨?_, ?_, PyIU_MinMax_traced_result _ _ _⟩
  · rcases PyIU_MinMax_traced_log cmp (Args.iterable seq) kwargs with h | ⟨it, hit, hlog, _⟩
    · rw [h]
      exact Nat.zero_le _
    · rw [hlog]
      have : it = seq := (Option.some.inj hit).symm
      rw [this]
      exact comparisons_loop cmp kwargs.keyfunc seq
  · rcases PyIU_MinMax_traced_log cmp (Args.values seq) kwargs with h | ⟨it, hit, hlog, _⟩
    · rw [h]
      exact Nat.zero_le _
    · rw [hlog]
      have : it = seq := by
        simp only [PyObject_GetIter] at hit
        split_ifs at hit
        exact (Option.some.inj hit).symm
      rw [this]
      exact comparisons_loop cmp kwargs.keyfunc seq

/-! ## Properties of `clamp` with comparisons that may fail -/

/-- One round of the loop of `clamp_next`, the two operators named. -/
theorem clamp_next_loop_cons_ops {E T : Type} (cmp : T → T → CompareOp → Except E Bool)
    (self : PyIUObject_Clamp T) (x : T) (rest : List T) :
    clamp_next_loop cmp self (x :: rest) =
      match (match self.low with
        | none => none
        | some low =>
          match cmp x low (lowOp self) with
          | .ok true =>
            if self.remove = 0 then some (.item low, rest)
            else some (clamp_next_loop cmp self rest)
          | .error e => some (.failed e, rest)
          | .ok false => none : Option (NextResult E T × List T)) with
      | some r => r
      | none =>
        match self.high with
        | none => (.item x, rest)
        | some high =>
          match cmp x high (highOp self) with
          | .ok true =>
            if self.remove = 0 then (.item high, rest)
            else clamp_next_loop cmp self rest
          | .error e => (.failed e, rest)
          | .ok false => (.item x, rest) := by
  rw [clamp_next_loop]
  rfl

/-- A suppressed item is skipped: the loop goes on with the next item. -/
theorem clamp_next_loop_suppressed {E T : Type} (cmp : T → T → CompareOp → Except E Bool)
    (self : PyIUObject_Clamp T) (x : T) (rest : List T) (h : Suppressed cmp self x) :
    clamp_next_loop cmp self (x :: rest) = clamp_next_loop cmp self rest := by
  rw [clamp_next_loop_cons_ops]
  obtain ⟨hr, hlow | ⟨hpass, hh, hhigh, hc⟩⟩ := h
  · obtain ⟨l, hl, hc⟩ := hlow
    simp [hl, hc, hr]
  · rcases hpass with hl | ⟨l, hl, hc1⟩
    · simp [hl, hhigh, hc, hr]
    · simp [hl, hc1, hhigh, hc, hr]

/-- A comparison fault ends the call at once, the faulty item consumed. -/
theorem clamp_next_loop_fault {E T : Type} (cmp : T → T → CompareOp → Except E Bool)
    (self : PyIUObject_Clamp T) (x : T) (rest : List T) (e : E) (h : FaultAt cmp self x e) :
    clamp_next_loop cmp self (x :: rest) = (.failed e, rest) := by
  rw [clamp_next_loop_cons_ops]
  rcases h with ⟨l, hl, hc⟩ | ⟨hpass, hh, hhigh, hc⟩
  · simp [hl, hc]
  · rcases hpass with hl | ⟨l, hl, hc1⟩
    · simp [hl, hhigh, hc]
    · simp [hl, hc1, hhigh, hc]

/-- One round of the loop: the item is suppressed, or its comparison fails, or
an item is put out; in the last two cases the call ends there. -/
theorem clamp_next_loop_round {E T : Type} (cmp : T → T → CompareOp → Except E Bool)
    (self : PyIUObject_Clamp T) (x : T) (rest : List T) :
    Suppressed cmp self x ∨
    (∃ e, FaultAt cmp self x e) ∨
    (∃ y, clamp_next_loop cmp self (x :: rest) = (.item y, rest)) := by
  have highPart : PassesLow cmp self x →
      (∀ r, clamp_next_loop cmp self (x :: rest) =
        (match self.high with
          | none => (.item x, rest)
          | some high =>
            match cmp x high (highOp self) with
            | .ok true =>
              if self.remove = 0 then (.item high, rest) else r
            | .error e => (.failed e, rest)
            | .ok false => (.item x, rest)) → 
        Suppressed cmp self x ∨ (∃ e, FaultAt cmp self x e) ∨
          (∃ y, clamp_next_loop cmp self (x :: rest) = (.item y, rest))) := by
    intro hpass r hloop
    cases hh : self.high with
    | none =>
      simp only [hh] at hloop
      exact Or.inr (Or.inr ⟨x, hloop⟩)
    | some high =>
      simp only [hh] at hloop
      cases hc : cmp x high (highOp self) with
      | error e => exact Or.inr (Or.inl ⟨e, Or.inr ⟨hpass, high, hh, hc⟩⟩)
      | ok b =>
        cases b with
        | false =>
          simp only [hc] at hloop
          exact Or.inr (Or.inr ⟨x, hloop⟩)
        | true =>
          simp only [hc] at hloop
          by_cases hr : self.remove = 0
          · rw [if_pos hr] at hloop
            exact Or.inr (Or.inr ⟨high, hloop⟩)
          · exact Or.inl ⟨hr, Or.inr ⟨hpass, high, hh, hc⟩⟩
  cases hl : self.low with
  | none =>
    refine highPart (Or.inl hl) (clamp_next_loop cmp self rest) ?_
    rw [clamp_next_loop_cons_ops]
    simp only [hl]
  | some low =>
    cases hc : cmp x low (lowOp self) with
    | error e => exact Or.inr (Or.inl ⟨e, Or.inl ⟨low, hl, hc⟩⟩)
    | ok b =>
      cases b with
      | false =>
        refine highPart (Or.inr ⟨low, hl, hc⟩) (clamp_next_loop cmp self rest) ?_
        rw [clamp_next_loop_cons_ops]
        simp only [hl, hc]
      | true =>
        by_cases hr : self.remove = 0
        · refine Or.inr (Or.inr ⟨low, ?_⟩)
          rw [clamp_next_loop_cons_ops]
          simp [hl, hc, hr]
        · exact Or.inl ⟨hr, Or.inl ⟨low, hl, hc⟩⟩

/-- Suppressed items at the front are skipped by the loop. -/
theorem clamp_next_loop_skip {E T : Type} (cmp : T → T → CompareOp → Except E Bool)
    (self : PyIUObject_Clamp T) :
    ∀ (skipped rest : List T), (∀ x ∈ skipped, Suppressed cmp self x) →
      clamp_next_loop cmp self (skipped ++ rest) = clamp_next_loop cmp self rest
  | [], _, _ => rfl
  | x :: xs, rest, h => by
    rw [List.cons_append, clamp_next_loop_suppressed cmp self x (xs ++ rest)
      (h x (List.mem_cons_self x xs))]
    exact clamp_next_loop_skip cmp self xs rest (fun y hy => h y (List.mem_cons_of_mem x hy))

/-- A call that fails has skipped suppressed items and stopped at a faulty one. -/
theorem clamp_next_loop_failed {E T : Type} (cmp : T → T → CompareOp → Except E Bool)
    (self : PyIUObject_Clamp T) (e : E) (rest : List T) :
    ∀ src : List T, clamp_next_loop cmp self src = (.failed e, rest) →
      ∃ skipped item, src = skipped ++ item :: rest ∧
        (∀ x ∈ skipped, Suppressed cmp self x) ∧ FaultAt cmp self item e
  | [], h => by
    simp [clamp_next_loop] at h
  | x :: xs, h => by
    rcases clamp_next_loop_round cmp self x xs with hs | ⟨e1, hf⟩ | ⟨y, hy⟩
    · rw [clamp_next_loop_suppressed cmp self x xs hs] at h
      obtain ⟨skipped, item, h1, h2, h3⟩ := clamp_next_loop_failed cmp self e rest xs h
      refine ⟨x :: skipped, item, by rw [h1, List.cons_append], ?_, h3⟩
      intro z hz
      rcases List.mem_cons.1 hz with hz | hz
      · rw [hz]; exact hs
      · exact h2 z hz
    · rw [clamp_next_loop_fault cmp self x xs e1 hf] at h
      have he : e1 = e := NextResult.failed.inj (Prod.mk.inj h).1
      have hr : xs = rest := (Prod.mk.inj h).2
      subst he
      subst hr
      exact ⟨[], x, rfl, fun z hz => absurd hz (List.not_mem_nil z), hf⟩
    · rw [hy] at h
      exact absurd (Prod.mk.inj h).1 (by simp)

/-- C13: comparison faults of the clamp are surfaced at once. If, after the
suppressed items `skipped`, the comparison of the drawn item with `low` fails
(or, `low` being absent or not violated, the comparison with `high` fails), then
this very call of `clamp_next` returns the failure: no item, not exhaustion;
and the source is left exactly after the faulty item, so nothing more was
drawn. The mode is arbitrary (in Replace mode nothing is ever skipped). -/
theorem clamp_fault_surfaced {E T : Type} (cmp : T → T → CompareOp → Except E Bool)
    (self : PyIUObject_Clamp T) (skipped : List T) (item : T) (rest : List T) (e : E)
    (hit : self.iterator = skipped ++ item :: rest)
    (hskip : ∀ x ∈ skipped, Suppressed cmp self x) (hfault : FaultAt cmp self item e) :
    clamp_next cmp self = (.failed e, { self with iterator := rest }) := by
  unfold clamp_next
  rw [hit, clamp_next_loop_skip cmp self skipped (item :: rest) hskip,
    clamp_next_loop_fault cmp self item rest e hfault]

/-- Witness for C13: source `1, None, 5, 7` with `low=3` in Remove mode; `1` is
suppressed, the comparison of `None` with `3` raises. -/
theorem clamp_fault_surfaced_witness :
    clamp_next noneCompare (clamp_new [some 1, none, some 5, some 7] (some (some 3)) none 0 1) =
      (.failed (), clamp_new [some 5, some 7] (some (some 3)) none 0 1) :=
  clamp_fault_surfaced noneCompare
    (clamp_new [some 1, none, some 5, some 7] (some (some 3)) none 0 1)
    [some 1] none [some 5, some 7] () rfl
    (fun x hx => by
      rw [List.mem_singleton.1 hx]
      exact ⟨by decide, Or.inl ⟨some 3, rfl, rfl⟩⟩)
    (Or.inl ⟨some 3, rfl, rfl⟩)

/-- Counterexample to C14: on the source `1, None, 5, 7` with `low=3` the first
call of `clamp_next` returns the comparison failure, and the next call on the
same clamp puts out `5`: the clamp is not terminated. -/
theorem clamp_resumes_after_fault_counterexample :
    (clamp_next noneCompare
      (clamp_new [some 1, none, some 5, some 7] (some (some 3)) none 0 1)).1 = .failed () ∧
    (clamp_next noneCompare (clamp_next noneCompare
      (clamp_new [some 1, none, some 5, some 7] (some (some 3)) none 0 1)).2).1 =
        .item (some 5) :=
  ⟨rfl, rfl⟩

/-- C14, amended: a comparison fault does not terminate the clamp. Once a call
of `clamp_next` has returned a comparison failure, the clamp keeps its bounds,
its inclusive flag and its mode, and its source is left exactly after the
faulty item, the items before it having been suppressed; so every later call
goes on with the later items of the source. -/
theorem clamp_after_fault {E T : Type} (cmp : T → T → CompareOp → Except E Bool)
    (self self1 : PyIUObject_Clamp T) (e : E)
    (h : clamp_next cmp self = (.failed e, self1)) :
    ∃ skipped item rest, self.iterator = skipped ++ item :: rest ∧
      (∀ x ∈ skipped, Suppressed cmp self x) ∧ FaultAt cmp self item e ∧
      self1 = clamp_new rest self.low self.high self.inclusive self.remove := by
  unfold clamp_next at h
  have h1 := (Prod.mk.inj h).1
  have h2 := (Prod.mk.inj h).2
  have hloop : clamp_next_loop cmp self self.iterator =
      (.failed e, (clamp_next_loop cmp self self.iterator).2) := by
    rw [← h1]
  obtain ⟨skipped, item, k1, k2, k3⟩ :=
    clamp_next_loop_failed cmp self e _ self.iterator hloop
  exact ⟨skipped, item, _, k1, k2, k3, h2.symm⟩

/-- Witness for C14 as amended: after the failure on `None` the clamp stands
before `5, 7` with its configuration unchanged. -/
theorem clamp_after_fault_witness :
    ∃ skipped item rest,
      (clamp_new [some 1, none, some 5, some 7] (some (some 3)) none 0 1).iterator =
        skipped ++ item :: rest ∧
      (∀ x ∈ skipped, Suppressed noneCompare
        (clamp_new [some 1, none, some 5, some 7] (some (some 3)) none 0 1) x) ∧
      FaultAt noneCompare
        (clamp_new [some 1, none, some 5, some 7] (some (some 3)) none 0 1) item () ∧
      clamp_new [some 5, some 7] (some (some 3)) none 0 1 =
        clamp_new rest (some (some 3)) none 0 1 :=
  clamp_after_fault noneCompare
    (clamp_new [some 1, none, some 5, some 7] (some (some 3)) none 0 1)
    (clamp_new [some 5, some 7] (some (some 3)) none 0 1) () rfl

/-! ## Further properties of `clamp` under a total order -/

/-- An in-range item is its own replacement. -/
theorem replaced_of_inRange {T : Type} [LinearOrder T] (low high : Option T) (inclusive : Bool)
    (x : T) (h : inRange low high inclusive x = true) : replaced low high inclusive x = x := by
  unfold inRange at h
  unfold replaced
  cases hb : belowLow low inclusive x <;> cases ha : aboveHigh high inclusive x <;>
    simp [hb, ha] at h ⊢

/-- C16: idempotence on in-range input. For every configuration (bounds present
or absent, any inclusive flag, Remove or Replace mode) and every source all of
whose items are in range for it, the output of the clamp is the source
unchanged. -/
theorem clamp_in_range_unchanged {E T : Type} [LinearOrder T] (src : List T)
    (low high : Option T) (inclusive remove : Int)
    (hin : ∀ x ∈ src, inRange low high (decide (inclusive ≠ 0)) x = true) :
    clamp_list (orderCompare E) (clamp_new src low high inclusive remove) = some (.ok src) := by
  by_cases hr : remove = 0
  · have h := @drain_replace E T _ (src.length + 1) (clamp_new src low high inclusive remove) hr
      (Nat.lt_succ_self _)
    have hmap : src.map (replaced low high (decide (inclusive ≠ 0))) = src := by
      conv_rhs => rw [← List.map_id src]
      exact List.map_congr_left (fun x hx => replaced_of_inRange low high _ x (hin x hx))
    show drain (orderCompare E) (src.length + 1) (clamp_new src low high inclusive remove) = _
    rw [h]
    show some (Except.ok (src.map (replaced low high (decide (inclusive ≠ 0))))) = _
    rw [hmap]
  · rw [clamp_list_remove src low high inclusive remove hr, List.filter_eq_self.2 hin]

/-- Witness for C16: `clamp([4, 5, 8], low=4, high=8)` in both modes. -/
theorem clamp_in_range_unchanged_witness :
    clamp_list (orderCompare Unit) (clamp_new [4, 5, 8] (some 4) (some 8) 0 1) =
      some (.ok [4, 5, 8]) ∧
    clamp_list (orderCompare Unit) (clamp_new [4, 5, 8] (some 4) (some 8) 0 0) =
      some (.ok [4, 5, 8]) :=
  ⟨clamp_in_range_unchanged [4, 5, 8] (some 4) (some 8) 0 1 (by decide),
    clamp_in_range_unchanged [4, 5, 8] (some 4) (some 8) 0 0 (by decide)⟩

/-- Remove mode under a total order: an out-of-range item is skipped. -/
theorem clamp_next_loop_skip_order {E T : Type} [LinearOrder T] (self : PyIUObject_Clamp T)
    (x : T) (rest : List T)
    (h : self.remove ≠ 0 ∧ inRange self.low self.high (decide (self.inclusive ≠ 0)) x = false) :
    clamp_next_loop (orderCompare E) self (x :: rest) =
      clamp_next_loop (orderCompare E) self rest := by
  rw [clamp_next_loop_cons]
  obtain ⟨hr, hx⟩ := h
  generalize decide (self.inclusive ≠ 0) = inc at *
  unfold inRange at hx
  cases hb : belowLow self.low inc x <;> cases ha : aboveHigh self.high inc x <;>
    simp [hb, ha, hr] at hx ⊢

/-- Under a total order an item that is not skipped is answered by its
replacement, which is the item itself in Remove mode. -/
theorem clamp_next_loop_emit_order {E T : Type} [LinearOrder T] (self : PyIUObject_Clamp T)
    (x : T) (rest : List T)
    (h : ¬ (self.remove ≠ 0 ∧
      inRange self.low self.high (decide (self.inclusive ≠ 0)) x = false)) :
    clamp_next_loop (orderCompare E) self (x :: rest) =
      (.item (replaced self.low self.high (decide (self.inclusive ≠ 0)) x), rest) := by
  rw [clamp_next_loop_cons]
  generalize decide (self.inclusive ≠ 0) = inc at *
  unfold inRange at h
  unfold replaced
  by_cases hr : self.remove = 0
  · cases hb : belowLow self.low inc x <;> cases ha : aboveHigh self.high inc x <;>
      simp [hb, ha, hr]
  · cases hb : belowLow self.low inc x <;> cases ha : aboveHigh self.high inc x <;>
      simp [hb, ha, hr] at h ⊢

/-- The loop of `clamp_next` under a total order: it skips the suppressed items
at the front and then either runs out of items or answers the first item that
is not suppressed. -/
theorem clamp_next_loop_order {E T : Type} [LinearOrder T] (self : PyIUObject_Clamp T) :
    ∀ src : List T, ∃ skipped,
      (∀ y ∈ skipped, self.remove ≠ 0 ∧
        inRange self.low self.high (decide (self.inclusive ≠ 0)) y = false) ∧
      ((src = skipped ∧ clamp_next_loop (orderCompare E) self src = (.exhausted, [])) ∨
       (∃ x rest, src = skipped ++ x :: rest ∧
          ¬ (self.remove ≠ 0 ∧
            inRange self.low self.high (decide (self.inclusive ≠ 0)) x = false) ∧
          clamp_next_loop (orderCompare E) self src =
            (.item (replaced self.low self.high (decide (self.inclusive ≠ 0)) x), rest)))
  | [] => ⟨[], fun y hy => absurd hy (List.not_mem_nil y), Or.inl ⟨rfl, by simp [clamp_next_loop]⟩⟩
  | x :: xs => by
    by_cases hx : self.remove ≠ 0 ∧
        inRange self.low self.high (decide (self.inclusive ≠ 0)) x = false
    · obtain ⟨skipped, hs, hcase⟩ := @clamp_next_loop_order E T _ self xs
      refine ⟨x :: skipped, ?_, ?_⟩
      · intro y hy
        rcases List.mem_cons.1 hy with hy | hy
        · rw [hy]; exact hx
        · exact hs y hy
      · rw [clamp_next_loop_skip_order self x xs hx]
        rcases hcase with ⟨h1, h2⟩ | ⟨z, rest, h1, h2, h3⟩
        · exact Or.inl ⟨by rw [h1], h2⟩
        · exact Or.inr ⟨z, rest, by rw [h1, List.cons_append], h2, h3⟩
    · exact ⟨[], fun y hy => absurd hy (List.not_mem_nil y),
        Or.inr ⟨x, xs, rfl, hx, clamp_next_loop_emit_order self x xs hx⟩⟩

/-- C20: pull protocol. Under a total order one call of `clamp_next` skips the
suppressed items `skipped` at the front of the source (suppressed: the mode is
Remove and the item is out of range) and then either (b) has run through the
whole source and reports exhaustion, not an error, leaving the source empty, or
(a) answers the first item `x` that is not suppressed, leaving exactly the items
after `x`: it puts out `x` itself when `x` is in range and otherwise a violated
bound (`low` when `x` is below `low`, else `high`). The bounds, the inclusive
flag and the mode are the same after the call. -/
theorem clamp_pull_protocol {E T : Type} [LinearOrder T] (self : PyIUObject_Clamp T) :
    (∃ skipped,
      (∀ y ∈ skipped, self.remove ≠ 0 ∧
        inRange self.low self.high (decide (self.inclusive ≠ 0)) y = false) ∧
      ((self.iterator = skipped ∧
          clamp_next (orderCompare E) self = (.exhausted, { self with iterator := [] })) ∨
       (∃ x rest out, self.iterator = skipped ++ x :: rest ∧
          ¬ (self.remove ≠ 0 ∧
            inRange self.low self.high (decide (self.inclusive ≠ 0)) x = false) ∧
          clamp_next (orderCompare E) self = (.item out, { self with iterator := rest }) ∧
          (inRange self.low self.high (decide (self.inclusive ≠ 0)) x = true → out = x) ∧
          (inRange self.low self.high (decide (self.inclusive ≠ 0)) x = false →
            (belowLow self.low (decide (self.inclusive ≠ 0)) x = true → self.low = some out) ∧
            (belowLow self.low (decide (self.inclusive ≠ 0)) x = false →
              aboveHigh self.high (decide (self.inclusive ≠ 0)) x = true ∧
              self.high = some out))))) ∧
    (clamp_next (orderCompare E) self).2.low = self.low ∧
    (clamp_next (orderCompare E) self).2.high = self.high ∧
    (clamp_next (orderCompare E) self).2.inclusive = self.inclusive ∧
    (clamp_next (orderCompare E) self).2.remove = self.remove := by
  refine ⟨?_, rfl, rfl, rfl, rfl⟩
  obtain ⟨skipped, hs, hcase⟩ := @clamp_next_loop_order E T _ self self.iterator
  refine ⟨skipped, hs, ?_⟩
  rcases hcase with ⟨h1, h2⟩ | ⟨x, rest, h1, h2, h3⟩
  · exact Or.inl ⟨h1, by simp only [clamp_next, h2]⟩
  · refine Or.inr ⟨x, rest, replaced self.low self.high (decide (self.inclusive ≠ 0)) x, h1, h2,
      by simp only [clamp_next, h3], ?_, ?_⟩
    · exact replaced_of_inRange _ _ _ x
    · intro hx
      generalize decide (self.inclusive ≠ 0) = inc at *
      unfold inRange at hx
      unfold replaced
      constructor
      · intro hb
        cases hl : self.low with
        | none =>
          rw [hl] at hb
          simp [belowLow] at hb
        | some l =>
          rw [hl] at hb
          simp [hb]
      · intro hb
        have ha : aboveHigh self.high inc x = true := by simpa [hb] using hx
        refine ⟨ha, ?_⟩
        cases hh : self.high with
        | none =>
          rw [hh] at ha
          simp [aboveHigh] at ha
        | some h =>
          rw [hh] at ha
          simp [hb, ha]

/-- C17: `__setstate__` with a 2-tuple `(inclusive, remove)` sets these two and
leaves `low`, `high` and the source as they are; with a 3-tuple
`(high, inclusive, remove)` it sets `high` and these two and leaves `low` and
the source as they are; and no call of `__setstate__`, whatever its tuple,
changes `low` or the source. -/
theorem clamp_setstate_updates {E T : Type} (asInt : T → Except E Int)
    (self : PyIUObject_Clamp T) (h a b : T) (i r : Int)
    (ha : asInt a = .ok i) (hb : asInt b = .ok r) :
    clamp_setstate asInt self [a, b] =
      (.ok (), { iterator := self.iterator, low := self.low, high := self.high,
                 inclusive := i, remove := r }) ∧
    clamp_setstate asInt self [h, a, b] =
      (.ok (), { iterator := self.iterator, low := self.low, high := some h,
                 inclusive := i, remove := r }) ∧
    ∀ state, (clamp_setstate asInt self state).2.low = self.low ∧
      (clamp_setstate asInt self state).2.iterator = self.iterator := by
  refine ⟨?_, ?_, ?_⟩
  · simp [clamp_setstate, PyArg_ParseTuple_ii, ha, hb]
  · simp [clamp_setstate, PyArg_ParseTuple_Oii, ha, hb]
  · intro state
    unfold clamp_setstate
    split_ifs
    · cases PyArg_ParseTuple_Oii asInt state <;> exact ⟨rfl, rfl⟩
    · cases PyArg_ParseTuple_ii asInt state <;> exact ⟨rfl, rfl⟩

/-- Witness for C17: integer items, a clamp with `low=4, high=8`; the state
`(1, 0)` and the state `(9, 1, 0)`. -/
theorem clamp_setstate_updates_witness :
    clamp_setstate (fun n : Int => (.ok n : Except Unit Int))
        (clamp_new [1, 2] (some 4) (some 8) 0 1) [1, 0] =
      (.ok (), clamp_new [1, 2] (some 4) (some 8) 1 0) ∧
    clamp_setstate (fun n : Int => (.ok n : Except Unit Int))
        (clamp_new [1, 2] (some 4) (some 8) 0 1) [9, 1, 0] =
      (.ok (), clamp_new [1, 2] (some 4) (some 9) 1 0) ∧
    ∀ state, (clamp_setstate (fun n : Int => (.ok n : Except Unit Int))
        (clamp_new [1, 2] (some 4) (some 8) 0 1) state).2.low = some 4 ∧
      (clamp_setstate (fun n : Int => (.ok n : Except Unit Int))
        (clamp_new [1, 2] (some 4) (some 8) 0 1) state).2.iterator = [1, 2] :=
  clamp_setstate_updates (fun n : Int => (.ok n : Except Unit Int))
    (clamp_new [1, 2] (some 4) (some 8) 0 1) 9 1 0 1 0 rfl rfl

/-- C18: checkpoint round trip. When an integer built by `__reduce__` reads back
as itself, then for every clamp (no bound, only `low`, only `high`, both; any
flags) building a clamp from the argument tuple of `__reduce__` and applying
its state tuple, when there is one, gives back the same clamp: same source, same
`low`, same `high`, same `inclusive`, same `remove`. -/
theorem clamp_reduce_roundtrip {E T : Type} (asInt : T → Except E Int) (ofInt : Int → T)
    (hint : ∀ n, asInt (ofInt n) = .ok n) (self : PyIUObject_Clamp T) :
    reconstruct asInt (clamp_reduce ofInt self) = .ok self := by
  rcases self with ⟨it, low, high, inclusive, remove⟩
  cases low <;> cases high <;>
    simp [reconstruct, clamp_reduce, clamp_new_args, clamp_setstate, PyArg_ParseTuple_ii,
      PyArg_ParseTuple_Oii, hint, clamp_new]

/-- Witness for C18: integer items; a clamp with only `high` set, whose state
tuple has three entries. -/
theorem clamp_reduce_roundtrip_witness :
    clamp_reduce (fun n : Int => n) (clamp_new [1, 2] none (some 8) 1 0) =
      { iterator := [1, 2], args := [], state := some [8, 1, 0] } ∧
    reconstruct (fun n : Int => (.ok n : Except Unit Int))
        (clamp_reduce (fun n : Int => n) (clamp_new [1, 2] none (some 8) 1 0)) =
      .ok (clamp_new [1, 2] none (some 8) 1 0) :=
  ⟨rfl, clamp_reduce_roundtrip (fun n : Int => (.ok n : Except Unit Int)) (fun n : Int => n)
    (fun _ => rfl) (clamp_new [1, 2] none (some 8) 1 0)⟩

/-- C19: malformed checkpoint arity. `__setstate__` with a tuple of neither two
nor three entries fails with `TypeError` (the specification's
ConfigurationError) and leaves the clamp as it was. -/
theorem clamp_setstate_bad_arity {E T : Type} (asInt : T → Except E Int)
    (self : PyIUObject_Clamp T) (state : List T)
    (h2 : state.length ≠ 2) (h3 : state.length ≠ 3) :
    clamp_setstate asInt self state = (.error .TypeError, self) := by
  unfold clamp_setstate
  rw [if_neg h3]
  rcases state with _ | ⟨a, _ | ⟨b, _ | ⟨c, rest⟩⟩⟩
  · rfl
  · rfl
  · exact absurd rfl h2
  · rfl

/-- Witness for C19: the empty tuple and a tuple of four entries. -/
theorem clamp_setstate_bad_arity_witness :
    clamp_setstate (fun n : Int => (.ok n : Except Unit Int))
        (clamp_new [1, 2] (some 4) (some 8) 0 1) [] =
      (.error .TypeError, clamp_new [1, 2] (some 4) (some 8) 0 1) ∧
    clamp_setstate (fun n : Int => (.ok n : Except Unit Int))
        (clamp_new [1, 2] (some 4) (some 8) 0 1) [9, 1, 0, 0] =
      (.error .TypeError, clamp_new [1, 2] (some 4) (some 8) 0 1) :=
  ⟨clamp_setstate_bad_arity _ _ [] (by decide) (by decide),
    clamp_setstate_bad_arity _ _ [9, 1, 0, 0] (by decide) (by decide)⟩

/-! ## Replace mode and the order of the two checks -/

/-- With `low <= high` a replacement lies between the bounds, whether or not the
bounds themselves count as out of range. -/
theorem replaced_within {T : Type} [LinearOrder T] (low high : T) (inclusive : Bool)
    (hle : low ≤ high) (x : T) :
    low ≤ replaced (some low) (some high) inclusive x ∧
      replaced (some low) (some high) inclusive x ≤ high := by
  unfold replaced
  cases inclusive
  · by_cases hb : x < low
    · simp [belowLow, hb, hle]
    · by_cases ha : high < x
      · simp [belowLow, aboveHigh, hb, ha, hle]
      · simp [belowLow, aboveHigh, hb, ha, not_lt.1 hb, not_lt.1 ha]
  · by_cases hb : x ≤ low
    · simp [belowLow, hb, hle]
    · by_cases ha : high ≤ x
      · simp [belowLow, aboveHigh, hb, ha, hle]
      · simp [belowLow, aboveHigh, hb, ha, (not_le.1 hb).le, (not_le.1 ha).le]

/-- C21: in Replace mode with both bounds present and `low <= high`, for every
source and both values of `inclusive`, every item `y` of the output satisfies
`low <= y <= high`. -/
theorem clamp_replace_within_bounds {E T : Type} [LinearOrder T] (src : List T)
    (low high : T) (inclusive : Int) (hle : low ≤ high) :
    ∃ out, clamp_list (orderCompare E) (clamp_new src (some low) (some high) inclusive 0) =
        some (.ok out) ∧
      ∀ y ∈ out, low ≤ y ∧ y ≤ high := by
  refine ⟨src.map (replaced (some low) (some high) (decide (inclusive ≠ 0))), ?_, ?_⟩
  · exact drain_replace (src.length + 1) (clamp_new src (some low) (some high) inclusive 0) rfl
      (Nat.lt_succ_self _)
  · intro y hy
    obtain ⟨x, _, rfl⟩ := List.mem_map.1 hy
    exact replaced_within low high _ hle x

/-- Witness for C21: `clamp(range(10), low=4, high=8, inclusive=True,
remove=False)` puts out `4` for `0..4`, the items `5, 6, 7`, and `8` for `8, 9`. -/
theorem clamp_replace_within_bounds_witness :
    clamp_list (orderCompare Unit) (clamp_new (List.range 10) (some 4) (some 8) 1 0) =
      some (.ok [4, 4, 4, 4, 4, 5, 6, 7, 8, 8]) ∧
    ∃ out, clamp_list (orderCompare Unit) (clamp_new (List.range 10) (some 4) (some 8) 1 0) =
        some (.ok out) ∧
      ∀ y ∈ out, 4 ≤ y ∧ y ≤ 8 :=
  ⟨rfl, clamp_replace_within_bounds (List.range 10) 4 8 1 (by decide)⟩

/-- With `low > high` the replacement of an item below `low` is `low`, which is
not `high`, and `high` is the replacement only of items that are not below `low`
and are above `high`. -/
theorem replaced_low_first {T : Type} [LinearOrder T] (low high : T) (inclusive : Bool)
    (hlt : high < low) (x : T) :
    (belowLow (some low) inclusive x = true →
      replaced (some low) (some high) inclusive x = low ∧
      replaced (some low) (some high) inclusive x ≠ high) ∧
    (replaced (some low) (some high) inclusive x = high →
      belowLow (some low) inclusive x = false ∧
      aboveHigh (some high) inclusive x = true) := by
  have hne : low ≠ high := ne_of_gt hlt
  unfold replaced
  cases hb : belowLow (some low) inclusive x
  · cases ha : aboveHigh (some high) inclusive x
    · refine ⟨fun h => absurd h (by simp), ?_⟩
      intro hx
      simp only [Bool.false_eq_true, if_false] at hx
      exfalso
      cases inclusive
      · simp only [belowLow, aboveHigh, Bool.false_eq_true, if_false, decide_eq_false_iff_not,
          not_lt, gt_iff_lt] at hb ha
        rw [hx] at hb
        exact absurd hlt (not_lt.2 hb)
      · simp only [belowLow, aboveHigh, if_true, decide_eq_false_iff_not, not_le,
          ge_iff_le] at hb ha
        rw [hx] at hb
        exact absurd hlt (not_lt.2 hb.le)
    · exact ⟨fun h => absurd h (by simp), fun _ => ⟨rfl, rfl⟩⟩
  · refine ⟨fun _ => ?_, ?_⟩
    · simp [hne]
    · intro hx
      simp at hx
      exact absurd hx hne

/-- C22: with inconsistent bounds (`low > high`) the check of `low` takes
precedence. In Replace mode, item by item: a source item that violates the low
bound is answered by `low`, not by `high`, also when it violates the high bound
too; and `high` is put out only for source items that do not violate the low
bound. -/
theorem clamp_replace_low_first {E T : Type} [LinearOrder T] (src : List T)
    (low high : T) (inclusive : Int) (hlt : high < low) :
    ∃ out, clamp_list (orderCompare E) (clamp_new src (some low) (some high) inclusive 0) =
        some (.ok out) ∧
      List.Forall₂ (fun x y =>
        (belowLow (some low) (decide (inclusive ≠ 0)) x = true → y = low ∧ y ≠ high) ∧
        (y = high → belowLow (some low) (decide (inclusive ≠ 0)) x = false ∧
          aboveHigh (some high) (decide (inclusive ≠ 0)) x = true)) src out := by
  refine ⟨src.map (replaced (some low) (some high) (decide (inclusive ≠ 0))), ?_, ?_⟩
  · exact drain_replace (src.length + 1) (clamp_new src (some low) (some high) inclusive 0) rfl
      (Nat.lt_succ_self _)
  · rw [List.forall₂_map_right_iff, List.forall₂_same]
    intro x _
    exact replaced_low_first low high _ hlt x

/-- Witness for C22: `low=5`, `high=2`, not inclusive, Replace mode: the item `3`
violates both bounds and is put out as `5`; so is `0`; `7` is put out as `2`. -/
theorem clamp_replace_low_first_witness :
    clamp_list (orderCompare Unit) (clamp_new [3, 0, 7] (some 5) (some 2) 0 0) =
      some (.ok [5, 5, 2]) ∧
    ∃ out, clamp_list (orderCompare Unit) (clamp_new [3, 0, 7] (some 5) (some 2) 0 0) =
        some (.ok out) ∧
      List.Forall₂ (fun x y =>
        (belowLow (some 5) (decide ((0 : Int) ≠ 0)) x = true → y = 5 ∧ y ≠ 2) ∧
        (y = 2 → belowLow (some 5) (decide ((0 : Int) ≠ 0)) x = false ∧
          aboveHigh (some 2) (decide ((0 : Int) ≠ 0)) x = true)) [3, 0, 7] out :=
  ⟨rfl, clamp_replace_low_first [3, 0, 7] 5 2 0 (by decide)⟩

end IterationUtilities
